import Mathlib

/-!
Shallow embedding of `src/languages/assemblyscript/maps.go` (functions
`readMap`, `writeMap`, `getSizeForOffset`) together with models of the
external collaborators they call (guest memory accessor, allocator,
pin/unpin, type info, field codec, hash), which are not part of the
source under study and are modelled from the specification.

Machine integers (`uint32`) are represented as `Nat`; modular reduction
`% 2^32` is written explicitly at the places where the Go code can
actually wrap (the `entries - 4` / `ptr - 4` address computations and
the byte-level encoding of 32-bit stores).  Guest linear memory is
byte-addressed, little-endian.
-/

/-- Result of a Go function call: a normal value, a returned `error`,
or a runtime panic (e.g. integer division by zero). -/
inductive GoRes (α : Type) where
  | ok (a : α)
  | err (msg : String)
  | goPanic (msg : String)
deriving DecidableEq, Repr

/-- Host-side values handled by the field codec model: 32-bit scalars,
64-bit scalars, and strings (as lists of UTF-16 code units). -/
inductive HostVal where
  | u32 (n : Nat)
  | u64 (n : Nat)
  | str (cs : List Nat)
deriving DecidableEq, Repr

/-- Host input handed to `writeMap`: either a native mapping (an
association list in the host map's iteration order) or some other Go
value, carried with the name its Go type prints as (`%T`). -/
inductive GoData where
  | mapData (pairs : List (HostVal × HostVal))
  | nonMap (typeName : String)
deriving DecidableEq, Repr

/-- Host value produced by `readMap`: a native mapping, or the
pseudo-map wrapper (a single-field struct tagged as map data holding an
ordered key/value pair list) used when the key type is not comparable. -/
inductive HostValue where
  | mapVal (pairs : List (HostVal × HostVal))
  | pairList (pairs : List (HostVal × HostVal))
deriving DecidableEq, Repr

/-- Modelled from the spec: guest linear memory, byte addressed.
`bytes` gives the byte stored at an address, `ok` whether the address
is in bounds (reads and writes at out-of-bounds addresses fail). -/
structure Memory where
  bytes : Nat → Nat
  ok : Nat → Bool

/-- Store one byte. -/
def Memory.setByte (m : Memory) (a v : Nat) : Memory :=
  { m with bytes := fun x => if x = a then v else m.bytes x }

/-- All of `[a, a+n)` in bounds? -/
def Memory.okRange (m : Memory) (a n : Nat) : Bool :=
  (List.range n).all fun i => m.ok (a + i)

/-- Store a list of bytes starting at `a`, without a bounds check
(used by the allocator model, which only touches fresh memory). -/
def Memory.setBytes : Memory → Nat → List Nat → Memory
  | m, _, [] => m
  | m, a, b :: bs => Memory.setBytes (m.setByte a b) (a + 1) bs

/-- Modelled from the spec: bounds-checked byte-range write of the
memory accessor. -/
def Memory.writeBytes (m : Memory) (a : Nat) (bs : List Nat) : Option Memory :=
  if m.okRange a bs.length then some (m.setBytes a bs) else none

/-- Modelled from the spec: bounds-checked byte-range read. -/
def Memory.readBytes (m : Memory) (a n : Nat) : Option (List Nat) :=
  if m.okRange a n then some ((List.range n).map fun i => m.bytes (a + i)) else none

/-- Little-endian byte decomposition of `v`, `n` bytes. -/
def leBytes : Nat → Nat → List Nat
  | 0, _ => []
  | n + 1, v => v % 256 :: leBytes n (v / 256)

/-- Little-endian recomposition of a byte list. -/
def lePack : List Nat → Nat
  | [] => 0
  | b :: bs => b % 256 + 256 * lePack bs

/-- Modelled from the spec: `WriteUint32Le` of the memory accessor. -/
def Memory.writeUint32Le (m : Memory) (a v : Nat) : Option Memory :=
  m.writeBytes a (leBytes 4 v)

/-- Modelled from the spec: `ReadUint32Le` of the memory accessor. -/
def Memory.readUint32Le (m : Memory) (a : Nat) : Option Nat :=
  (m.readBytes a 4).map lePack

/-- Modelled from the spec: 64-bit little-endian store (used by the
field codec for 64-bit scalars). -/
def Memory.writeUint64Le (m : Memory) (a v : Nat) : Option Memory :=
  m.writeBytes a (leBytes 8 v)

/-- Modelled from the spec: 64-bit little-endian load. -/
def Memory.readUint64Le (m : Memory) (a : Nat) : Option Nat :=
  (m.readBytes a 8).map lePack

/-- Zero-fill `[a, a+n)` (allocator model: fresh allocations are
zero-initialized). -/
def Memory.zeroRegion (m : Memory) (a n : Nat) : Memory :=
  { m with bytes := fun x => if a ≤ x ∧ x < a + n then 0 else m.bytes x }

/-- Modelled from the spec: the collaborators of the map reader/writer
(type info service, reflection, hash function, allocator / pin / unpin
failure injection).  `allocFail` is keyed by the allocation call count,
`pinFail` / `unpinFail` by the offset being pinned or unpinned; `none`
means the call succeeds. -/
structure Env where
  getMapSubtypes : String → String × String
  reflectedComparable : String → Except String Bool
  sizeOfType : String → Nat
  typeDefId : String → Except String Nat
  hashBytes : List Nat → Nat
  hashScalar : HostVal → Nat
  allocFail : Nat → Option String
  pinFail : Nat → Option String
  unpinFail : Nat → Option String

/-- State threaded through `writeMap`: guest memory, the allocator's
bump cursor and call count, and the traces of pin and unpin calls made
so far. -/
structure WasmState where
  mem : Memory
  nextAlloc : Nat
  allocCount : Nat
  pinLog : List Nat
  unpinLog : List Nat

/-- Modelled from the spec: the guest allocator.  It reserves
`size` bytes of fresh zero-initialized memory, records the buffer's
byte length in the word immediately preceding the returned offset (the
array-buffer length convention the read path relies on), and advances
the bump cursor. -/
def allocateWasmMemory (env : Env) (st : WasmState) (size _id : Nat) :
    Except String (Nat × WasmState) :=
  match env.allocFail st.allocCount with
  | some e => .error e
  | none =>
    let base := st.nextAlloc
    let off := base + 4
    let m := (st.mem.setBytes base (leBytes 4 size)).zeroRegion off size
    .ok (off, { st with mem := m, nextAlloc := off + size, allocCount := st.allocCount + 1 })

/-- Modelled from the spec: pin an allocation against guest garbage
collection; the call is recorded in the pin trace. -/
def pinWasmMemory (env : Env) (st : WasmState) (off : Nat) :
    WasmState × Option String :=
  ({ st with pinLog := st.pinLog ++ [off] }, env.pinFail off)

/-- Modelled from the spec: release a pin; the call is recorded in the
unpin trace. -/
def unpinWasmMemory (env : Env) (st : WasmState) (off : Nat) :
    WasmState × Option String :=
  ({ st with unpinLog := st.unpinLog ++ [off] }, env.unpinFail off)

/-- Modelled from the spec: `utils.EncodeUTF16` — a host string
(list of UTF-16 code units) as little-endian bytes. -/
def utf16Bytes (cs : List Nat) : List Nat :=
  cs.flatMap fun c => [c % 256, c / 256 % 256]

/-- Inverse of `utf16Bytes`: pair up bytes into code units. -/
def utf16OfBytes : List Nat → List Nat
  | b0 :: b1 :: rest => (b0 % 256 + 256 * (b1 % 256)) :: utf16OfBytes rest
  | _ => []

/-- Modelled from the spec: `writeRawBytes` — allocate a buffer with
the given class id and copy the bytes into it, returning its offset. -/
def writeRawBytes (env : Env) (st : WasmState) (bs : List Nat) (id : Nat) :
    Except String (Nat × WasmState) :=
  match allocateWasmMemory env st bs.length id with
  | .error e => .error e
  | .ok (off, st') =>
    match st'.mem.writeBytes off bs with
    | none => .error "failed to write bytes"
    | some m => .ok (off, { st' with mem := m })

/-- Go `uint32` subtraction of 4, as used for the array-buffer length
word that sits 4 bytes before a buffer pointer (`entries - 4`). -/
def u32Sub4 (x : Nat) : Nat := (x + 2 ^ 32 - 4) % 2 ^ 32

/-- Modelled from the spec: `readField` of the field codec, over the
closed type vocabulary `u32` / `u64` / `string`.  Scalars are read
inline; a string field is a pointer to a UTF-16 buffer whose byte
length sits in the word before it. -/
def readField (mem : Memory) (typ : String) (addr : Nat) : Except String HostVal :=
  match typ with
  | "u32" =>
    match mem.readUint32Le addr with
    | some v => .ok (.u32 v)
    | none => .error "failed to read field"
  | "u64" =>
    match mem.readUint64Le addr with
    | some v => .ok (.u64 v)
    | none => .error "failed to read field"
  | "string" =>
    match mem.readUint32Le addr with
    | none => .error "failed to read field"
    | some ptr =>
      match mem.readUint32Le (u32Sub4 ptr) with
      | none => .error "failed to read string length"
      | some len =>
        match mem.readBytes ptr len with
        | none => .error "failed to read string bytes"
        | some bs => .ok (.str (utf16OfBytes bs))
  | _ => .error ("unsupported type " ++ typ)

/-- Modelled from the spec: `writeField` of the field codec.  Scalars
are written inline and return allocated pointer 0; a string value is
written to a fresh UTF-16 buffer whose (nonzero) offset is stored at
`addr` and returned as the allocated pointer. -/
def writeField (env : Env) (st : WasmState) (typ : String) (addr : Nat)
    (v : HostVal) : Except String (Nat × WasmState) :=
  match typ, v with
  | "u32", .u32 n =>
    match st.mem.writeUint32Le addr n with
    | some m => .ok (0, { st with mem := m })
    | none => .error "failed to write field"
  | "u64", .u64 n =>
    match st.mem.writeUint64Le addr n with
    | some m => .ok (0, { st with mem := m })
    | none => .error "failed to write field"
  | "string", .str cs =>
    match writeRawBytes env st (utf16Bytes cs) 2 with
    | .error e => .error e
    | .ok (ptr, st') =>
      match st'.mem.writeUint32Le addr ptr with
      | some m => .ok (ptr, { st' with mem := m })
      | none => .error "failed to write field"
  | _, _ => .error "unsupported field value"

/-!  Embedding of the source file itself. -/

/-- Source `getSizeForOffset` (maps.go lines 324-333): 64-bit keys have
an 8-byte value offset; everything else 4 bytes. -/
def getSizeForOffset (typ : String) : Nat :=
  match typ with
  | "u64" | "i64" | "f64" => 8
  | _ => 4

/-- The entry-size computation inlined in `writeMap` (maps.go lines
183-185): `entryAlign := max(keySize, valueSize, 4) - 1` and
`entrySize := (keySize + valueSize + 4 + entryAlign) & ^entryAlign`,
with `^` the `uint32` bitwise complement. -/
def entrySizeCalc (keySize valueSize : Nat) : Nat :=
  let entryAlign := max (max keySize valueSize) 4 - 1
  (keySize + valueSize + 4 + entryAlign) &&& ((2 ^ 32 - 1) ^^^ entryAlign)

/-- The capacity loop of `writeMap` (maps.go lines 152-160): double
`bucketsCapacity` while it is below the element count, updating
`entriesCapacity = bucketsCapacity * 8 / 3` and
`bucketsMask = bucketsCapacity - 1` at each doubling.  The structural
`fuel` argument only bounds the iteration count; `writeMapCapacities`
passes enough fuel that it never runs out (see
`writeMapCapacitiesLoop_fuel`), so the function agrees with the
unbounded Go loop. -/
def writeMapCapacitiesLoop (mapLen : Nat) :
    Nat → Nat → Nat → Nat → Nat × Nat × Nat
  | 0, bucketsCapacity, entriesCapacity, bucketsMask =>
    (bucketsCapacity, entriesCapacity, bucketsMask)
  | fuel + 1, bucketsCapacity, entriesCapacity, bucketsMask =>
    if bucketsCapacity < mapLen then
      writeMapCapacitiesLoop mapLen fuel (bucketsCapacity <<< 1)
        (bucketsCapacity <<< 1 * 8 / 3) (bucketsCapacity <<< 1 - 1)
    else
      (bucketsCapacity, entriesCapacity, bucketsMask)

/-- Capacities and mask computed by `writeMap` from the element count:
seeded with `bucketsCapacity = 4`, `entriesCapacity = 4`,
`bucketsMask = bucketsCapacity - 1`. -/
def writeMapCapacities (mapLen : Nat) : Nat × Nat × Nat :=
  writeMapCapacitiesLoop mapLen mapLen 4 4 (4 - 1)

/-- Go `uint32` division: panics on a zero divisor. -/
def goDivU32 (a b : Nat) : GoRes Nat :=
  if b = 0 then .goPanic "integer divide by zero" else .ok (a / b)

/-- Model of `reflect.Value.SetMapIndex` on the association-list
representation of a Go map: replace the value under an existing key,
otherwise append the pair. -/
def mapSetIndex (l : List (HostVal × HostVal)) (k v : HostVal) :
    List (HostVal × HostVal) :=
  if l.any fun p => decide (p.1 = k) then
    l.map fun p => if p.1 = k then (k, v) else p
  else l ++ [(k, v)]

/-- The entry-decoding loop shared by both branches of `readMap`: for
`n` remaining entries starting at index `i`, decode the key at
`entries + i * entrySize` and the value at `valueOffset` past it. -/
def readMapPairs (mem : Memory) (keyType valueType : String)
    (entries entrySize valueOffset : Nat) :
    Nat → Nat → Except String (List (HostVal × HostVal))
  | _, 0 => .ok []
  | i, n + 1 =>
    let p := entries + i * entrySize
    match readField mem keyType p with
    | .error e => .error e
    | .ok k =>
      match readField mem valueType (p + valueOffset) with
      | .error e => .error e
      | .ok v =>
        match readMapPairs mem keyType valueType entries entrySize valueOffset (i + 1) n with
        | .error e => .error e
        | .ok rest => .ok ((k, v) :: rest)

/-- Source `readMap` (maps.go lines 18-129).  Reads the entries
pointer, capacity and count from the header (the buckets pointer, mask
and entries offset reads are commented out in the source), reads the
entries buffer byte length from the word before the entries pointer,
derives the stride by `uint32` division, and decodes the entries into
a native map (comparable key type) or the pseudo-map pair list. -/
def readMap (env : Env) (mem : Memory) (typ : String) (offset : Nat) :
    GoRes HostValue :=
  match mem.readUint32Le (offset + 8) with
  | none => .err "failed to read map entries pointer"
  | some entries =>
    match mem.readUint32Le (offset + 12) with
    | none => .err "failed to read map entries capacity"
    | some entriesCapacity =>
      match mem.readUint32Le (offset + 20) with
      | none => .err "failed to read map entries count"
      | some entriesCount =>
        match mem.readUint32Le (u32Sub4 entries) with
        | none => .err "failed to read map entries buffer length"
        | some byteLength =>
          match goDivU32 byteLength entriesCapacity with
          | .err e => .err e
          | .goPanic e => .goPanic e
          | .ok entrySize =>
            let (keyType, valueType) := env.getMapSubtypes typ
            let valueOffset := getSizeForOffset keyType
            match env.reflectedComparable keyType with
            | .error e => .err e
            | .ok rKeyComparable =>
              match env.reflectedComparable valueType with
              | .error e => .err e
              | .ok _ =>
                if rKeyComparable then
                  match readMapPairs mem keyType valueType entries entrySize valueOffset 0 entriesCount with
                  | .error e => .err e
                  | .ok pairs => .ok (.mapVal (pairs.foldl (fun m p => mapSetIndex m p.1 p.2) []))
                else
                  match readMapPairs mem keyType valueType entries entrySize valueOffset 0 entriesCount with
                  | .error e => .err e
                  | .ok pairs => .ok (.pairList pairs)

/-- The `if ptr != 0 { pin; pins = append(pins, ptr) }` step of
`writeMap` (maps.go lines 236-243 and 254-261). -/
def pinIfAllocated (env : Env) (st : WasmState) (pins : List Nat) (ptr : Nat) :
    WasmState × List Nat × Option String :=
  if ptr = 0 then (st, pins, none)
  else
    match pinWasmMemory env st ptr with
    | (st', some e) => (st', pins, some e)
    | (st', none) => (st', pins ++ [ptr], none)

/-- The per-entry key write of `writeMap` (maps.go lines 209-234):
string keys are encoded to UTF-16 by hand, hashed over those bytes,
written to a raw buffer and the buffer pointer stored at the entry
offset; every other key is hashed as a scalar and written through the
field codec.  Returns the hash code and the allocated pointer. -/
def writeMapEntryKey (env : Env) (keyType : String) (entryOffset : Nat)
    (key : HostVal) (st : WasmState) : WasmState × Except String (Nat × Nat) :=
  match key with
  | .str cs =>
    let bytes := utf16Bytes cs
    let hashCode := env.hashBytes bytes
    match writeRawBytes env st bytes 2 with
    | .error e => (st, .error ("failed to write map entry key: " ++ e))
    | .ok (ptr, st') =>
      match st'.mem.writeUint32Le entryOffset ptr with
      | none => (st', .error "failed to write map entry key pointer")
      | some m => ({ st' with mem := m }, .ok (hashCode, ptr))
  | _ =>
    let hashCode := env.hashScalar key
    match writeField env st keyType entryOffset key with
    | .error e => (st, .error ("failed to write map entry key: " ++ e))
    | .ok (ptr, st') => (st', .ok (hashCode, ptr))

/-- The entry loop of `writeMap` (maps.go lines 204-277): write the
key, pin its allocation if any, write the value, pin its allocation if
any, then link the entry into its bucket: store the bucket's current
head into the entry's tagged-next word and the entry offset into the
bucket word. -/
def writeMapLoop (env : Env) (keyType valueType : String)
    (entriesBufferOffset bucketsBufferOffset entrySize bucketsMask valueOffset taggedNextOffset : Nat) :
    List (HostVal × HostVal) → Nat → WasmState → List Nat →
    WasmState × List Nat × Option String
  | [], _, st, pins => (st, pins, none)
  | (key, value) :: rest, i, st, pins =>
    let entryOffset := entriesBufferOffset + entrySize * i
    match writeMapEntryKey env keyType entryOffset key st with
    | (st, .error e) => (st, pins, some e)
    | (st, .ok (hashCode, keyPtr)) =>
      match pinIfAllocated env st pins keyPtr with
      | (st, pins, some e) => (st, pins, some e)
      | (st, pins, none) =>
        match writeField env st valueType (entryOffset + valueOffset) value with
        | .error e => (st, pins, some ("failed to write map entry value: " ++ e))
        | .ok (valPtr, st) =>
          match pinIfAllocated env st pins valPtr with
          | (st, pins, some e) => (st, pins, some e)
          | (st, pins, none) =>
            let bucketPtrBase := bucketsBufferOffset + (hashCode &&& bucketsMask) * 4
            match st.mem.readUint32Le bucketPtrBase with
            | none => (st, pins, some "failed to read previous map entry bucket pointer")
            | some prev =>
              match st.mem.writeUint32Le (entryOffset + taggedNextOffset) prev with
              | none => (st, pins, some "failed to write map entry tagged next field")
              | some m =>
                let st := { st with mem := m }
                match st.mem.writeUint32Le bucketPtrBase entryOffset with
                | none => (st, pins, some "failed to write map entry bucket pointer")
                | some m =>
                  writeMapLoop env keyType valueType entriesBufferOffset bucketsBufferOffset
                    entrySize bucketsMask valueOffset taggedNextOffset rest (i + 1)
                    { st with mem := m } pins

/-- The deferred cleanup of `writeMap` (maps.go lines 141-150): walk
the collected pins, assigning each unpin result to the named `err`
return and stopping at the first unpin failure.  Because `err` is the
function's named result, this overwrites whatever error the body
returned whenever at least one pin exists. -/
def writeMapDefer (env : Env) : WasmState → List Nat → Nat → Option String →
    WasmState × Nat × Option String
  | st, [], off, err => (st, off, err)
  | st, ptr :: rest, off, _ =>
    match unpinWasmMemory env st ptr with
    | (st', some e) => (st', off, some e)
    | (st', none) => writeMapDefer env st' rest off none

/-- The body of `writeMap` (maps.go lines 131-322) before the deferred
cleanup runs: reject non-map input, compute capacities, allocate and
pin the buckets and entries array buffers, run the entry loop, then
allocate the 24-byte map object and populate its six header words.
Returns the final state, the collected pins, and the named `offset`
and `err` results as they stand when the body returns. -/
def writeMapBody (env : Env) (typ : String) (data : GoData) (st : WasmState) :
    WasmState × List Nat × Nat × Option String :=
  match data with
  | .nonMap t => (st, [], 0, some ("unsupported map type " ++ t))
  | .mapData pairsIn =>
    let mapLen := pairsIn.length
    let (bucketsCapacity, entriesCapacity, bucketsMask) := writeMapCapacities mapLen
    let bucketSize := 4
    let bucketsBufferSize := bucketSize * bucketsCapacity
    match allocateWasmMemory env st bucketsBufferSize 1 with
    | .error e => (st, [], 0, some ("failed to allocate memory for array buffer: " ++ e))
    | .ok (bucketsBufferOffset, st) =>
      match pinWasmMemory env st bucketsBufferOffset with
      | (st, some e) => (st, [], 0, some ("failed to pin array buffer: " ++ e))
      | (st, none) =>
        let pins := [bucketsBufferOffset]
        let (keyType, valueType) := env.getMapSubtypes typ
        let keySize := env.sizeOfType keyType
        let valueSize := env.sizeOfType valueType
        let entrySize := entrySizeCalc keySize valueSize
        let entriesBufferSize := entrySize * entriesCapacity
        match allocateWasmMemory env st entriesBufferSize 1 with
        | .error e => (st, pins, 0, some ("failed to allocate memory for array buffer: " ++ e))
        | .ok (entriesBufferOffset, st) =>
          match pinWasmMemory env st entriesBufferOffset with
          | (st, some e) => (st, pins, 0, some ("failed to pin array buffer: " ++ e))
          | (st, none) =>
            let pins := pins ++ [entriesBufferOffset]
            let valueOffset := getSizeForOffset keyType
            let taggedNextOffset := getSizeForOffset valueType + valueOffset
            match writeMapLoop env keyType valueType entriesBufferOffset bucketsBufferOffset
                entrySize bucketsMask valueOffset taggedNextOffset pairsIn 0 st pins with
            | (st, pins, some e) => (st, pins, 0, some e)
            | (st, pins, none) =>
              match env.typeDefId typ with
              | .error e => (st, pins, 0, some e)
              | .ok defId =>
                match allocateWasmMemory env st 24 defId with
                | .error e => (st, pins, 0, some e)
                | .ok (offset, st) =>
                  match st.mem.writeUint32Le offset bucketsBufferOffset with
                  | none => (st, pins, 0, some "failed to write map buckets pointer")
                  | some m =>
                    let st := { st with mem := m }
                    match st.mem.writeUint32Le (offset + 4) bucketsMask with
                    | none => (st, pins, 0, some "failed to write map buckets mask")
                    | some m =>
                      let st := { st with mem := m }
                      match st.mem.writeUint32Le (offset + 8) entriesBufferOffset with
                      | none => (st, pins, 0, some "failed to write map entries pointer")
                      | some m =>
                        let st := { st with mem := m }
                        match st.mem.writeUint32Le (offset + 12) entriesCapacity with
                        | none => (st, pins, 0, some "failed to write map entries capacity")
                        | some m =>
                          let st := { st with mem := m }
                          match st.mem.writeUint32Le (offset + 16) mapLen with
                          | none => (st, pins, 0, some "failed to write map entries offset")
                          | some m =>
                            let st := { st with mem := m }
                            match st.mem.writeUint32Le (offset + 20) mapLen with
                            | none => (st, pins, 0, some "failed to write map entries count")
                            | some m =>
                              ({ st with mem := m }, pins, offset, none)

/-- Source `writeMap`: run the body, then the deferred unpin loop over
the collected pins against the body's named results. -/
def writeMap (env : Env) (typ : String) (data : GoData) (st : WasmState) :
    WasmState × Nat × Option String :=
  match writeMapBody env typ data st with
  | (st', pins, off, err) => writeMapDefer env st' pins off err

/-!  Specification-side definitions used in the claim statements. -/

/-- Round `n` up to the next multiple of `a`. -/
def alignUp (n a : Nat) : Nat := (n + a - 1) / a * a

/-- `b` is the smallest power of two that is at least `n`, with a
minimum of 4. -/
def IsLeastPow2GE (n b : Nat) : Prop :=
  4 ≤ b ∧ n ≤ b ∧ (∃ k, b = 2 ^ k) ∧
    ∀ c, 4 ≤ c → n ≤ c → (∃ k, c = 2 ^ k) → b ≤ c

/-- The hash code `writeMap` computes for a key: string keys are
hashed over their UTF-16 bytes, all other keys as scalars. -/
def hashOf (env : Env) : HostVal → Nat
  | .str cs => env.hashBytes (utf16Bytes cs)
  | v => env.hashScalar v

/-- The bucket index of a key under a mask. -/
def bucketOf (env : Env) (mask : Nat) (k : HostVal) : Nat :=
  hashOf env k &&& mask

/-- After inserting the keys `ks` (entry `j` living at
`ebo + es * j`, counting from start index `i` with initial head
`acc`), the head pointer of bucket `b`. -/
def bucketHeadAux (env : Env) (mask ebo es b : Nat) :
    List HostVal → Nat → Nat → Nat
  | [], _, acc => acc
  | k :: ks, i, acc =>
    bucketHeadAux env mask ebo es b ks (i + 1)
      (if bucketOf env mask k = b then ebo + es * i else acc)

/-- Head pointer of bucket `b` after inserting all keys `ks` starting
from an empty (all-zero) bucket array. -/
def bucketHead (env : Env) (mask ebo es : Nat) (ks : List HostVal) (b : Nat) : Nat :=
  bucketHeadAux env mask ebo es b ks 0 0

/-- The tagged-next value entry `j` receives: the head of its bucket
just before it is inserted (0 when that bucket is still empty). -/
def taggedNextVal (env : Env) (mask ebo es : Nat) (ks : List HostVal) (j : Nat) : Nat :=
  bucketHead env mask ebo es (ks.take j) (bucketOf env mask (ks.getD j (.u32 0)))

/-- Well-formedness of a host value at a guest type from the codec's
vocabulary: scalars within range, strings made of UTF-16 code units
(below 2^16) and short enough for their byte length to fit the 32-bit
buffer length word. -/
def wfVal (typ : String) (v : HostVal) : Bool :=
  if typ = "u32" then
    match v with
    | .u32 n => n < 2 ^ 32
    | _ => false
  else if typ = "u64" then
    match v with
    | .u64 n => n < 2 ^ 64
    | _ => false
  else if typ = "string" then
    match v with
    | .str cs => (cs.all fun c => c < 2 ^ 16) && cs.length < 2 ^ 31
    | _ => false
  else false

/-- The byte length of the inline entry write for a field of the given
type: the scalar width, or 4 for the string pointer.  On the supported
vocabulary it coincides with `getSizeForOffset`. -/
def hostTypeSize : String → Nat
  | "u64" => 8
  | _ => 4

/-!  Concrete fixtures used by witnesses and counterexamples. -/

/-- All-zero, fully mapped guest memory. -/
def memZero : Memory where
  bytes := fun _ => 0
  ok := fun _ => true

/-- Initial state for concrete runs: empty logs, cursor at 16. -/
def stInit : WasmState where
  mem := memZero
  nextAlloc := 16
  allocCount := 0
  pinLog := []
  unpinLog := []

/-- Environment with `u32` keys and values where every collaborator
call succeeds. -/
def envU32 : Env where
  getMapSubtypes := fun _ => ("u32", "u32")
  reflectedComparable := fun _ => .ok true
  sizeOfType := hostTypeSize
  typeDefId := fun _ => .ok 7
  hashBytes := fun bs => bs.foldl (fun h b => h + b) 0
  hashScalar := fun v => match v with | .u32 n => n | .u64 n => n % 2 ^ 32 | .str _ => 0
  allocFail := fun _ => none
  pinFail := fun _ => none
  unpinFail := fun _ => none

/-- Environment with `string` keys and `u64` values. -/
def envStrU64 : Env :=
  { envU32 with
    getMapSubtypes := fun _ => ("string", "u64")
    hashBytes := fun bs => bs.foldl (fun h b => h + 3 * b) 5 }

/-- Environment whose key type is not comparable on the host. -/
def envNoCmp : Env := { envU32 with reflectedComparable := fun _ => .ok false }

/-- Environment whose allocator fails its second call (the entries
array buffer), after the buckets buffer has been pinned. -/
def envAllocFail1 : Env :=
  { envU32 with allocFail := fun n => if n = 1 then some "out of memory" else none }

/-- A header at offset 100 whose `bucketsPtr`, `bucketsMask` and
`entriesOffset` words are unreadable while the three words `readMap`
actually uses (entries pointer 204, capacity 4, count 0) and the
buffer length word at 200 read fine. -/
def memHdr : Memory where
  bytes := fun x => if x = 108 then 204 else if x = 112 then 4 else if x = 200 then 48 else 0
  ok := fun x => decide (x < 100 ∨ (108 ≤ x ∧ x < 116) ∨ 120 ≤ x)

/-- A header at offset 100 whose entries-capacity word is unreadable. -/
def memHdrCapFault : Memory where
  bytes := fun x => if x = 108 then 204 else 0
  ok := fun x => decide (x < 112 ∨ 116 ≤ x)

/-- A concrete successful write with a non-comparable key type. -/
def wmNoCmp : WasmState × Nat × Option String :=
  writeMap envNoCmp "m" (.mapData [(.u32 1, .u32 2)]) stInit

/-- A concrete successful write with `u32` keys and values. -/
def wmU32 : WasmState × Nat × Option String :=
  writeMap envU32 "m" (.mapData [(.u32 1, .u32 2), (.u32 5, .u32 6)]) stInit

/-- A concrete successful write with `string` keys and `u64` values. -/
def wmStr : WasmState × Nat × Option String :=
  writeMap envStrU64 "m" (.mapData [(.str [72, 300], .u64 (2 ^ 40 + 7)), (.str [], .u64 0)]) stInit

/-!  Lemmas about the capacity loop. -/

/-- Enough fuel makes the capacity loop's fuel irrelevant: with
`mapLen ≤ fuel + bucketsCapacity` one more unit of fuel changes
nothing, so `writeMapCapacities` computes the Go loop's fixpoint. -/
theorem writeMapCapacitiesLoop_fuel (mapLen fuel bc ec mask : Nat)
    (hbc : 0 < bc) (hfuel : mapLen ≤ fuel + bc) :
    writeMapCapacitiesLoop mapLen (fuel + 1) bc ec mask =
      writeMapCapacitiesLoop mapLen fuel bc ec mask := by
  induction fuel generalizing bc ec mask with
  | zero =>
    simp only [writeMapCapacitiesLoop]
    have : ¬ bc < mapLen := by omega
    simp [this]
  | succ n ih =>
    simp only [writeMapCapacitiesLoop]
    by_cases h : bc < mapLen
    · simp only [h, if_true]
      exact ih _ _ _ (by simp [Nat.shiftLeft_eq]; omega) (by simp [Nat.shiftLeft_eq]; omega)
    · simp [h]

/-- Invariant proof for the capacity loop: starting from a power of
two `bc ≥ 4` below which every admissible capacity is smaller than
`mapLen`, the loop returns the least power of two that is `≥ mapLen`
(minimum 4), keeps `mask = bc - 1`, and sets
`entriesCapacity = bc * 8 / 3` exactly when it iterated. -/
theorem writeMapCapacitiesLoop_spec (mapLen fuel bc ec mask : Nat)
    (h4 : 4 ≤ bc) (hpow : ∃ k, bc = 2 ^ k) (hmask : mask = bc - 1)
    (hfuel : mapLen ≤ fuel + bc)
    (hmin : ∀ c, 4 ≤ c → (∃ k, c = 2 ^ k) → c < bc → c < mapLen) :
    IsLeastPow2GE mapLen (writeMapCapacitiesLoop mapLen fuel bc ec mask).1 ∧
    (writeMapCapacitiesLoop mapLen fuel bc ec mask).2.2 =
      (writeMapCapacitiesLoop mapLen fuel bc ec mask).1 - 1 ∧
    (writeMapCapacitiesLoop mapLen fuel bc ec mask).2.1 =
      (if bc < mapLen then (writeMapCapacitiesLoop mapLen fuel bc ec mask).1 * 8 / 3 else ec) := by
  induction fuel generalizing bc ec mask with
  | zero =>
    have hge : ¬ bc < mapLen := by omega
    simp only [writeMapCapacitiesLoop, hge, if_false]
    refine ⟨⟨h4, by omega, hpow, ?_⟩, hmask, by trivial⟩
    intro c hc4 hcle hcpow
    by_contra hlt
    have := hmin c hc4 hcpow (by omega)
    omega
  | succ n ih =>
    by_cases h : bc < mapLen
    · have hstep : writeMapCapacitiesLoop mapLen (n + 1) bc ec mask =
          writeMapCapacitiesLoop mapLen n (bc <<< 1) (bc <<< 1 * 8 / 3) (bc <<< 1 - 1) := by
        simp [writeMapCapacitiesLoop, h]
      rw [hstep]
      obtain ⟨k, hk⟩ := hpow
      have hsh : bc <<< 1 = 2 * bc := by simp [Nat.shiftLeft_eq]; ring
      have := ih (bc <<< 1) (bc <<< 1 * 8 / 3) (bc <<< 1 - 1)
        (by omega) ⟨k + 1, by rw [hsh, hk]; ring⟩ rfl (by omega) ?_
      · obtain ⟨h1, h2, h3⟩ := this
        refine ⟨h1, h2, ?_⟩
        rw [h3]
        by_cases h2lt : bc <<< 1 < mapLen
        · simp [h2lt, h]
        · have hexit : writeMapCapacitiesLoop mapLen n (bc <<< 1) (bc <<< 1 * 8 / 3) (bc <<< 1 - 1) =
              (bc <<< 1, bc <<< 1 * 8 / 3, bc <<< 1 - 1) := by
            cases n <;> simp [writeMapCapacitiesLoop, h2lt]
          simp [h2lt, h, hexit]
      · intro c hc4 hcpow hlt
        by_cases hcbc : c < bc
        · exact hmin c hc4 hcpow hcbc
        · obtain ⟨j, hj⟩ := hcpow
          have hkj : 2 ^ k ≤ 2 ^ j := by omega
          have hjk : 2 ^ j < 2 ^ (k + 1) := by
            have : (2 : Nat) ^ (k + 1) = 2 * 2 ^ k := by ring
            omega
          have hk_le_j : k ≤ j := (Nat.pow_le_pow_iff_right (by omega)).mp hkj
          have hj_lt : j < k + 1 := (Nat.pow_lt_pow_iff_right (by omega)).mp hjk
          have : j = k := by omega
          subst this
          omega
    · have : writeMapCapacitiesLoop mapLen (n + 1) bc ec mask = (bc, ec, mask) := by
        simp [writeMapCapacitiesLoop, h]
      rw [this]
      refine ⟨⟨h4, by omega, hpow, ?_⟩, hmask, by simp [h]⟩
      intro c hc4 hcle hcpow
      by_contra hlt
      have := hmin c hc4 hcpow (by omega)
      omega

/-- Helper: when the entry-decoding loop succeeds it yields exactly
one pair per remaining entry. -/
theorem readMapPairs_length (mem : Memory) (kt vt : String) (e es vo : Nat) :
    ∀ n i l, readMapPairs mem kt vt e es vo i n = .ok l → l.length = n := by
  intro n
  induction n with
  | zero =>
    intro i l h
    simp only [readMapPairs] at h
    cases h
    rfl
  | succ n ih =>
    intro i l h
    simp only [readMapPairs] at h
    cases hk : readField mem kt (e + i * es) with
    | error e' => rw [hk] at h; exact absurd h (by simp)
    | ok k =>
      rw [hk] at h
      cases hv : readField mem vt (e + i * es + vo) with
      | error e' => rw [hv] at h; exact absurd h (by simp)
      | ok v =>
        rw [hv] at h
        cases hr : readMapPairs mem kt vt e es vo (i + 1) n with
        | error e' => rw [hr] at h; exact absurd h (by simp)
        | ok rest =>
          rw [hr] at h
          cases h
          simp [ih (i + 1) rest hr]

/-- C2 (amended): for every element count, the `bucketsCapacity`
computed by `writeMap` is the smallest power of two at least the count
(minimum 4), and `bucketsMask = bucketsCapacity - 1`; `entriesCapacity`
equals `bucketsCapacity * 8 / 3` exactly when the count exceeds 4, and
otherwise keeps its initial value 4 (not `4 * 8 / 3 = 10`), because
the loop only recomputes it when it doubles the buckets capacity. -/
theorem writeMapCapacities_growth (n : Nat) :
    IsLeastPow2GE n (writeMapCapacities n).1 ∧
    (writeMapCapacities n).2.2 = (writeMapCapacities n).1 - 1 ∧
    (writeMapCapacities n).2.1 =
      (if 4 < n then (writeMapCapacities n).1 * 8 / 3 else 4) := by
  have h := writeMapCapacitiesLoop_spec n n 4 4 (4 - 1) (by omega)
    ⟨2, by norm_num⟩ rfl (by omega) (fun c hc4 _ hlt => by omega)
  unfold writeMapCapacities
  refine ⟨h.1, h.2.1, ?_⟩
  rw [h.2.2]

/-- C2 counterexample: at element count 4 (likewise 0 and 1) the code
computes `bucketsCapacity = 4` but `entriesCapacity = 4`, whereas the
claimed relation `entriesCapacity = bucketsCapacity * 8 / 3` would
give 10. -/
theorem writeMapCapacities_ratio_fails_at_4 :
    writeMapCapacities 4 = (4, 4, 3) ∧
    (writeMapCapacities 4).2.1 ≠ (writeMapCapacities 4).1 * 8 / 3 := by decide

/-- C6: for every supported key/value size pair, the entry size
computed by `writeMap`'s bit trick equals `keySize + valueSize + 4`
rounded up to a multiple of `max(keySize, valueSize, 4)`; in
particular sizes (4,4) give 12 and (8,8) give 24. -/
theorem entrySizeCalc_align (ks vs : Nat)
    (hk : ks ∈ [1, 2, 4, 8]) (hv : vs ∈ [1, 2, 4, 8]) :
    entrySizeCalc ks vs = alignUp (ks + vs + 4) (max ks (max vs 4)) ∧
    entrySizeCalc 4 4 = 12 ∧ entrySizeCalc 8 8 = 24 := by
  have h : ∀ a ∈ [1, 2, 4, 8], ∀ b ∈ [1, 2, 4, 8],
      entrySizeCalc a b = alignUp (a + b + 4) (max a (max b 4)) := by decide
  exact ⟨h ks hk vs hv, by decide, by decide⟩

/-- Witness for C6 at sizes (4, 8). -/
theorem entrySizeCalc_align_witness :
    (4 ∈ [1, 2, 4, 8]) ∧ (8 ∈ [1, 2, 4, 8]) ∧
    (entrySizeCalc 4 8 = alignUp (4 + 8 + 4) (max 4 (max 8 4)) ∧
      entrySizeCalc 4 4 = 12 ∧ entrySizeCalc 8 8 = 24) :=
  ⟨by decide, by decide, entrySizeCalc_align 4 8 (by decide) (by decide)⟩

/-- C9: `writeMap` rejects every host input that is not a native
mapping with the `unsupported map type` error naming the input's type,
returns offset 0, and leaves the state untouched (no allocation, no
pins). -/
theorem writeMap_rejects_nonmap (env : Env) (typ t : String) (st : WasmState) :
    writeMap env typ (.nonMap t) st = (st, 0, some ("unsupported map type " ++ t)) := rfl

/-- C4 (code bug): when the entries-buffer allocation fails after the
buckets buffer was pinned, the body of `writeMap` produces the
allocation error, but the deferred unpin loop assigns its own result
to the named `err` return; all unpins succeed, so the call reports
`(0, nil)` — success with a zero offset — and the primary error is
lost, contradicting the claim that the primary error is still
reported. -/
theorem writeMap_cleanup_masks_primary_error :
    (writeMapBody envAllocFail1 "m" (.mapData []) stInit).2.2.2 =
      some "failed to allocate memory for array buffer: out of memory" ∧
    (writeMap envAllocFail1 "m" (.mapData []) stInit).2 = (0, none) := by decide

/-- C10: the per-entry stride in `readMap` is `byteLength /
entriesCapacity` with no zero guard, so a header whose capacity word
reads as 0 (with the buffer length word readable) makes the call end
in a `uint32` divide-by-zero runtime panic rather than a clean error,
while any nonzero capacity never panics. -/
theorem readMap_unguarded_division (env : Env) (mem : Memory) (typ : String) (offset : Nat) :
    (∀ e cnt bl, mem.readUint32Le (offset + 8) = some e →
      mem.readUint32Le (offset + 12) = some 0 →
      mem.readUint32Le (offset + 20) = some cnt →
      mem.readUint32Le (u32Sub4 e) = some bl →
      readMap env mem typ offset = .goPanic "integer divide by zero") ∧
    (∀ cap msg, mem.readUint32Le (offset + 12) = some cap → cap ≠ 0 →
      readMap env mem typ offset ≠ .goPanic msg) := by
  constructor
  · intro e cnt bl h8 h12 h20 hbl
    simp [readMap, h8, h12, h20, hbl, goDivU32]
  · intro cap msg h12 hcap
    unfold readMap
    cases h8 : mem.readUint32Le (offset + 8) with
    | none => simp [h8]
    | some e =>
      simp only [h8, h12]
      cases h20 : mem.readUint32Le (offset + 20) with
      | none => simp [h20]
      | some cnt =>
        simp only [h20]
        cases hbl : mem.readUint32Le (u32Sub4 e) with
        | none => simp [hbl]
        | some bl =>
          simp only [hbl, goDivU32]
          rw [if_neg hcap]
          repeat' split
          all_goals simp_all

/-- C3 counterexample: in `memHdr` the `bucketsPtr` (offset+0),
`bucketsMask` (offset+4) and `entriesOffset` (offset+16) header words
are unreadable, yet `readMap` succeeds and returns a host value —
those fields are never read (the reads are commented out in the
source), so a fault there does not produce a `MemoryFault` naming the
field. -/
theorem readMap_ignores_unused_header_fields :
    memHdr.readUint32Le 100 = none ∧ memHdr.readUint32Le 104 = none ∧
    memHdr.readUint32Le 116 = none ∧
    readMap envU32 memHdr "m" 100 = .ok (.mapVal []) := by decide

/-- C3 (amended): for each header field `readMap` actually reads —
entries pointer (offset+8), entries capacity (offset+12), entries
count (offset+20) — and for the entries buffer length word, a failed
memory read at that field makes the call fail with the error naming
that field and no host value is returned; the remaining three header
fields are never read. -/
theorem readMap_fault_names_field (env : Env) (mem : Memory) (typ : String) (offset : Nat) :
    (mem.readUint32Le (offset + 8) = none →
      readMap env mem typ offset = .err "failed to read map entries pointer") ∧
    (∀ e, mem.readUint32Le (offset + 8) = some e →
      mem.readUint32Le (offset + 12) = none →
      readMap env mem typ offset = .err "failed to read map entries capacity") ∧
    (∀ e c, mem.readUint32Le (offset + 8) = some e →
      mem.readUint32Le (offset + 12) = some c →
      mem.readUint32Le (offset + 20) = none →
      readMap env mem typ offset = .err "failed to read map entries count") ∧
    (∀ e c n, mem.readUint32Le (offset + 8) = some e →
      mem.readUint32Le (offset + 12) = some c →
      mem.readUint32Le (offset + 20) = some n →
      mem.readUint32Le (u32Sub4 e) = none →
      readMap env mem typ offset = .err "failed to read map entries buffer length") :=
  ⟨fun h8 => by simp [readMap, h8],
   fun e h8 h12 => by simp [readMap, h8, h12],
   fun e c h8 h12 h20 => by simp [readMap, h8, h12, h20],
   fun e c n h8 h12 h20 hbl => by simp [readMap, h8, h12, h20, hbl]⟩

/-- Witness for C3: a header whose entries-capacity word is
unreadable fails naming the entries capacity. -/
theorem readMap_fault_names_field_witness :
    memHdrCapFault.readUint32Le 108 = some 204 ∧
    memHdrCapFault.readUint32Le 112 = none ∧
    readMap envU32 memHdrCapFault "m" 100 = .err "failed to read map entries capacity" :=
  ⟨by decide, by decide,
   (readMap_fault_names_field envU32 memHdrCapFault "m" 100).2.1 204 (by decide) (by decide)⟩

/-- C8: when the key type is not comparable on the host, a successful
`readMap` returns the pseudo-map pair-list wrapper (never a native
mapping), and the number of pairs equals the header's entries count. -/
theorem readMap_noncomparable_pairList (env : Env) (mem : Memory) (typ : String)
    (offset cnt : Nat) (kt vt : String) (v : HostValue)
    (hsub : env.getMapSubtypes typ = (kt, vt))
    (hcmp : env.reflectedComparable kt = .ok false)
    (hcnt : mem.readUint32Le (offset + 20) = some cnt)
    (hok : readMap env mem typ offset = .ok v) :
    ∃ l, v = .pairList l ∧ l.length = cnt := by
  unfold readMap at hok
  cases h8 : mem.readUint32Le (offset + 8) with
  | none => simp only [h8] at hok; exact absurd hok (by simp)
  | some e =>
    simp only [h8] at hok
    cases h12 : mem.readUint32Le (offset + 12) with
    | none => simp only [h12] at hok; exact absurd hok (by simp)
    | some cap =>
      simp only [h12, hcnt] at hok
      cases hbl : mem.readUint32Le (u32Sub4 e) with
      | none => simp only [hbl] at hok; exact absurd hok (by simp)
      | some bl =>
        simp only [hbl] at hok
        by_cases hcap : cap = 0
        · rw [hcap] at hok
          simp [goDivU32] at hok
        · simp only [goDivU32] at hok
          rw [if_neg hcap] at hok
          simp [hsub, hcmp] at hok
          cases hvc : env.reflectedComparable vt with
          | error e' => simp only [hvc] at hok; exact absurd hok (by simp)
          | ok b =>
            simp only [hvc] at hok
            cases hr : readMapPairs mem kt vt e (bl / cap) (getSizeForOffset kt) 0 cnt with
            | error e' => simp only [hr] at hok; exact absurd hok (by simp)
            | ok l =>
              simp only [hr] at hok
              cases hok
              exact ⟨l, rfl, readMapPairs_length mem kt vt e (bl / cap)
                (getSizeForOffset kt) cnt 0 l hr⟩

/-- Witness for C8: a concrete non-comparable read returns a one-pair
list matching entries count 1. -/
theorem readMap_noncomparable_pairList_witness :
    envNoCmp.getMapSubtypes "m" = ("u32", "u32") ∧
    envNoCmp.reflectedComparable "u32" = .ok false ∧
    wmNoCmp.1.mem.readUint32Le (wmNoCmp.2.1 + 20) = some 1 ∧
    ∃ l, HostValue.pairList [(.u32 1, .u32 2)] = .pairList l ∧ l.length = 1 :=
  ⟨rfl, rfl, by decide,
   readMap_noncomparable_pairList envNoCmp wmNoCmp.1.mem "m" wmNoCmp.2.1 1
     "u32" "u32" (.pairList [(.u32 1, .u32 2)]) rfl rfl (by decide) (by decide)⟩

/-- Witness for C10: in all-zero memory the capacity word reads 0 and
`readMap` ends in the divide-by-zero panic. -/
theorem readMap_unguarded_division_witness :
    memZero.readUint32Le 12 = some 0 ∧
    readMap envU32 memZero "m" 0 = .goPanic "integer divide by zero" :=
  ⟨by decide, (readMap_unguarded_division envU32 memZero "m" 0).1 0 0 0
    (by decide) (by decide) (by decide) (by decide)⟩

/-!  Byte-level memory lemmas. -/

theorem setBytes_ok (a : Nat) (bs : List Nat) (m : Memory) :
    (Memory.setBytes m a bs).ok = m.ok := by
  induction bs generalizing m a with
  | nil => rfl
  | cons b t ih => simp only [Memory.setBytes]; rw [ih]; rfl

theorem setBytes_bytes (a : Nat) (bs : List Nat) (m : Memory) (x : Nat) :
    (Memory.setBytes m a bs).bytes x =
      if a ≤ x ∧ x < a + bs.length then bs.getD (x - a) 0 else m.bytes x := by
  induction bs generalizing m a with
  | nil =>
    simp only [Memory.setBytes, List.length_nil, Nat.add_zero]
    rw [if_neg (by omega)]
  | cons b t ih =>
    simp only [Memory.setBytes, List.length_cons]
    rw [ih]
    by_cases h1 : a + 1 ≤ x ∧ x < a + 1 + t.length
    · rw [if_pos h1, if_pos (by omega)]
      have hxa : x - a = (x - (a + 1)) + 1 := by omega
      rw [hxa, List.getD_cons_succ]
    · rw [if_neg h1]
      simp only [Memory.setByte]
      by_cases hxa : x = a
      · subst hxa
        rw [if_pos rfl, if_pos (by omega)]
        simp
      · rw [if_neg hxa, if_neg (by omega)]

theorem zeroRegion_bytes (m : Memory) (a n x : Nat) :
    (m.zeroRegion a n).bytes x = if a ≤ x ∧ x < a + n then 0 else m.bytes x := rfl

theorem zeroRegion_ok (m : Memory) (a n : Nat) : (m.zeroRegion a n).ok = m.ok := rfl

theorem okRange_of_ok (m : Memory) (a n : Nat) (h : ∀ x, m.ok x = true) :
    m.okRange a n = true := by
  simp [Memory.okRange, h]

theorem readBytes_of_ok (m : Memory) (a n : Nat) (h : ∀ x, m.ok x = true) :
    m.readBytes a n = some ((List.range n).map fun i => m.bytes (a + i)) := by
  simp [Memory.readBytes, okRange_of_ok m a n h]

theorem writeBytes_of_ok (m : Memory) (a : Nat) (bs : List Nat) (h : ∀ x, m.ok x = true) :
    m.writeBytes a bs = some (m.setBytes a bs) := by
  simp [Memory.writeBytes, okRange_of_ok m a bs.length h]

theorem readBytes_congr_ok (m m' : Memory) (a n : Nat)
    (hb : ∀ x, a ≤ x → x < a + n → m'.bytes x = m.bytes x)
    (hok : ∀ x, m.ok x = true) (hok' : ∀ x, m'.ok x = true) :
    m'.readBytes a n = m.readBytes a n := by
  rw [readBytes_of_ok m a n hok, readBytes_of_ok m' a n hok']
  congr 1
  apply List.map_congr_left
  intro i hi
  have := List.mem_range.mp hi
  exact hb (a + i) (by omega) (by omega)

theorem readUint32Le_congr_ok (m m' : Memory) (a : Nat)
    (hb : ∀ x, a ≤ x → x < a + 4 → m'.bytes x = m.bytes x)
    (hok : ∀ x, m.ok x = true) (hok' : ∀ x, m'.ok x = true) :
    m'.readUint32Le a = m.readUint32Le a := by
  unfold Memory.readUint32Le
  rw [readBytes_congr_ok m m' a 4 hb hok hok']

theorem leBytes_length (n v : Nat) : (leBytes n v).length = n := by
  induction n generalizing v with
  | zero => rfl
  | succ k ih => simp [leBytes, ih]

theorem lePack_leBytes (n v : Nat) : lePack (leBytes n v) = v % 2 ^ (8 * n) := by
  induction n generalizing v with
  | zero => simp [leBytes, lePack]; omega
  | succ k ih =>
    simp only [leBytes, lePack]
    rw [ih]
    have h2 : (2 : Nat) ^ (8 * (k + 1)) = 256 * 2 ^ (8 * k) := by
      have h3 : 8 * (k + 1) = 8 + 8 * k := by ring
      rw [h3, pow_add]
      norm_num
    rw [h2, Nat.mod_mul]
    omega

theorem readBytes_setBytes_self (m : Memory) (a : Nat) (bs : List Nat)
    (hok : ∀ x, m.ok x = true) :
    (m.setBytes a bs).readBytes a bs.length = some bs := by
  rw [readBytes_of_ok _ _ _ (fun x => by rw [setBytes_ok]; exact hok x)]
  congr 1
  apply List.ext_getElem
  · simp
  · intro i h1 h2
    simp only [List.getElem_map, List.getElem_range]
    rw [setBytes_bytes]
    have hi : i < bs.length := by simpa using h2
    rw [if_pos (by omega)]
    have h4 : a + i - a = i := by omega
    rw [h4, List.getD_eq_getElem bs 0 hi]

theorem readUint32Le_setBytes_leBytes (m : Memory) (a v : Nat)
    (hok : ∀ x, m.ok x = true) :
    (m.setBytes a (leBytes 4 v)).readUint32Le a = some (v % 2 ^ 32) := by
  unfold Memory.readUint32Le
  have h := readBytes_setBytes_self m a (leBytes 4 v) hok
  rw [leBytes_length] at h
  rw [h]
  simp only [Option.map_some']
  rw [lePack_leBytes]

theorem readUint64Le_setBytes_leBytes (m : Memory) (a v : Nat)
    (hok : ∀ x, m.ok x = true) :
    (m.setBytes a (leBytes 8 v)).readUint64Le a = some (v % 2 ^ 64) := by
  unfold Memory.readUint64Le
  have h := readBytes_setBytes_self m a (leBytes 8 v) hok
  rw [leBytes_length] at h
  rw [h]
  simp only [Option.map_some']
  rw [lePack_leBytes]

/-- `u32Sub4` really is subtraction by 4 for in-range pointers. -/
theorem u32Sub4_eq (x : Nat) (h4 : 4 ≤ x) (h32 : x < 2 ^ 32) : u32Sub4 x = x - 4 := by
  unfold u32Sub4
  have h1 : x + 2 ^ 32 - 4 = (x - 4) + 2 ^ 32 := by omega
  rw [h1, Nat.add_mod_right]
  exact Nat.mod_eq_of_lt (by omega)

/-!  State-level lemmas about the collaborator models. -/

/-- All allocator, pin and unpin calls succeed. -/
def NoFailEnv (env : Env) : Prop :=
  (∀ n, env.allocFail n = none) ∧ (∀ p, env.pinFail p = none) ∧
    (∀ p, env.unpinFail p = none)

theorem utf16Bytes_length (cs : List Nat) : (utf16Bytes cs).length = 2 * cs.length := by
  induction cs with
  | nil => rfl
  | cons c t ih => simp [utf16Bytes] at ih ⊢; omega

theorem utf16OfBytes_utf16Bytes (cs : List Nat) (h : ∀ c ∈ cs, c < 2 ^ 16) :
    utf16OfBytes (utf16Bytes cs) = cs := by
  induction cs with
  | nil => rfl
  | cons c t ih =>
    have hc : c < 2 ^ 16 := h c (by simp)
    have ht := ih fun c hc => h c (by simp [hc])
    have hstep : utf16Bytes (c :: t) = c % 256 :: c / 256 % 256 :: utf16Bytes t := by
      simp [utf16Bytes]
    rw [hstep]
    show (c % 256 % 256 + 256 * (c / 256 % 256 % 256)) :: utf16OfBytes (utf16Bytes t) = c :: t
    rw [ht]
    congr 1
    omega

theorem allocateWasmMemory_spec (env : Env) (st : WasmState) (size id : Nat)
    (hfail : env.allocFail st.allocCount = none) :
    allocateWasmMemory env st size id = .ok (st.nextAlloc + 4,
      { st with
        mem := (st.mem.setBytes st.nextAlloc (leBytes 4 size)).zeroRegion
          (st.nextAlloc + 4) size
        nextAlloc := st.nextAlloc + 4 + size
        allocCount := st.allocCount + 1 }) := by
  unfold allocateWasmMemory
  rw [hfail]

theorem pinIfAllocated_spec (env : Env) (st : WasmState) (pins : List Nat) (ptr : Nat)
    (hfail : ∀ p, env.pinFail p = none) :
    ∃ st' ps, pinIfAllocated env st pins ptr = (st', pins ++ ps, none) ∧
      st'.mem = st.mem ∧ st'.nextAlloc = st.nextAlloc ∧
      st'.allocCount = st.allocCount ∧
      st'.unpinLog = st.unpinLog ∧ st'.pinLog = st.pinLog ++ ps ∧
      ps = (if ptr = 0 then [] else [ptr]) := by
  unfold pinIfAllocated pinWasmMemory
  rw [hfail]
  by_cases h : ptr = 0
  · exact ⟨st, [], by simp [h], rfl, rfl, rfl, rfl, by simp, by simp [h]⟩
  · exact ⟨{ st with pinLog := st.pinLog ++ [ptr] }, [ptr], by simp [h], rfl, rfl, rfl,
      rfl, rfl, by simp [h]⟩

theorem writeRawBytes_spec (env : Env) (st : WasmState) (bs : List Nat) (id : Nat)
    (hfail : ∀ n, env.allocFail n = none)
    (hok : ∀ x, st.mem.ok x = true) :
    ∃ st', writeRawBytes env st bs id = .ok (st.nextAlloc + 4, st') ∧
      st'.nextAlloc = st.nextAlloc + 4 + bs.length ∧
      st'.pinLog = st.pinLog ∧ st'.unpinLog = st.unpinLog ∧
      (∀ x, st'.mem.ok x = st.mem.ok x) ∧
      (∀ x, x < st.nextAlloc → st'.mem.bytes x = st.mem.bytes x) ∧
      st'.mem.readUint32Le st.nextAlloc = some (bs.length % 2 ^ 32) ∧
      st'.mem.readBytes (st.nextAlloc + 4) bs.length = some bs := by
  have hok1 : ∀ x, ((st.mem.setBytes st.nextAlloc (leBytes 4 bs.length)).zeroRegion
      (st.nextAlloc + 4) bs.length).ok x = true := by
    intro x
    rw [zeroRegion_ok, setBytes_ok]
    exact hok x
  have hrun : writeRawBytes env st bs id = .ok (st.nextAlloc + 4,
      { st with
        mem := ((st.mem.setBytes st.nextAlloc (leBytes 4 bs.length)).zeroRegion
          (st.nextAlloc + 4) bs.length).setBytes (st.nextAlloc + 4) bs
        nextAlloc := st.nextAlloc + 4 + bs.length
        allocCount := st.allocCount + 1 }) := by
    unfold writeRawBytes
    rw [allocateWasmMemory_spec env st bs.length id (hfail _)]
    dsimp only
    rw [writeBytes_of_ok _ _ _ hok1]
  refine ⟨_, hrun, rfl, rfl, rfl, ?_, ?_, ?_, ?_⟩
  · intro x
    dsimp only
    rw [setBytes_ok, zeroRegion_ok, setBytes_ok]
  · intro x hx
    dsimp only
    rw [setBytes_bytes, if_neg (by omega), zeroRegion_bytes, if_neg (by omega),
      setBytes_bytes, if_neg (by rw [leBytes_length]; omega)]
  · dsimp only
    have hcg : (((st.mem.setBytes st.nextAlloc (leBytes 4 bs.length)).zeroRegion
        (st.nextAlloc + 4) bs.length).setBytes (st.nextAlloc + 4) bs).readUint32Le
          st.nextAlloc =
        (st.mem.setBytes st.nextAlloc (leBytes 4 bs.length)).readUint32Le st.nextAlloc := by
      apply readUint32Le_congr_ok
      · intro x h1 h2
        rw [setBytes_bytes, if_neg (by omega), zeroRegion_bytes, if_neg (by omega)]
      · intro x
        rw [setBytes_ok]
        exact hok x
      · intro x
        rw [setBytes_ok]
        exact hok1 x
    rw [hcg, readUint32Le_setBytes_leBytes st.mem st.nextAlloc bs.length hok]
  · dsimp only
    exact readBytes_setBytes_self _ (st.nextAlloc + 4) bs hok1

/-- Postconditions of a single field write at `addr`: the allocator
cursor only moves forward, only the field's slot bytes (below the old
cursor) change, pin/unpin logs are untouched, the allocated pointer is
nonzero exactly for strings, and the field reads back as the written
value from any memory agreeing with the result on the slot and on the
freshly allocated range. -/
structure FieldWritten (typ : String) (addr : Nat) (v : HostVal)
    (st st' : WasmState) (ptr : Nat) : Prop where
  mono : st.nextAlloc ≤ st'.nextAlloc
  okEq : ∀ x, st'.mem.ok x = st.mem.ok x
  pinsEq : st'.pinLog = st.pinLog
  unpinsEq : st'.unpinLog = st.unpinLog
  frame : ∀ x, x < st.nextAlloc → (x < addr ∨ addr + hostTypeSize typ ≤ x) →
    st'.mem.bytes x = st.mem.bytes x
  readback : st'.nextAlloc < 2 ^ 32 → ∀ m' : Memory,
    (∀ x, ((addr ≤ x ∧ x < addr + hostTypeSize typ) ∨
      (st.nextAlloc ≤ x ∧ x < st'.nextAlloc)) → m'.bytes x = st'.mem.bytes x) →
    (∀ x, m'.ok x = true) → readField m' typ addr = .ok v
  ptrEq : ptr = if typ = "string" then st.nextAlloc + 4 else 0
  naGrow : ptr ≠ 0 → st.nextAlloc + 4 ≤ st'.nextAlloc

theorem writeField_u32 (env : Env) (st : WasmState) (addr n : Nat) :
    writeField env st "u32" addr (.u32 n) =
      match st.mem.writeUint32Le addr n with
      | some m => .ok (0, { st with mem := m })
      | none => .error "failed to write field" := rfl

theorem writeField_u64 (env : Env) (st : WasmState) (addr n : Nat) :
    writeField env st "u64" addr (.u64 n) =
      match st.mem.writeUint64Le addr n with
      | some m => .ok (0, { st with mem := m })
      | none => .error "failed to write field" := rfl

theorem writeField_str (env : Env) (st : WasmState) (addr : Nat) (cs : List Nat) :
    writeField env st "string" addr (.str cs) =
      match writeRawBytes env st (utf16Bytes cs) 2 with
      | .error e => .error e
      | .ok (ptr, st') =>
        match st'.mem.writeUint32Le addr ptr with
        | some m => .ok (ptr, { st' with mem := m })
        | none => .error "failed to write field" := rfl

theorem readField_u32 (mem : Memory) (addr : Nat) :
    readField mem "u32" addr =
      match mem.readUint32Le addr with
      | some v => .ok (.u32 v)
      | none => .error "failed to read field" := rfl

theorem readField_u64 (mem : Memory) (addr : Nat) :
    readField mem "u64" addr =
      match mem.readUint64Le addr with
      | some v => .ok (.u64 v)
      | none => .error "failed to read field" := rfl

theorem readField_str (mem : Memory) (addr : Nat) :
    readField mem "string" addr =
      (match mem.readUint32Le addr with
      | none => .error "failed to read field"
      | some ptr =>
        match mem.readUint32Le (u32Sub4 ptr) with
        | none => .error "failed to read string length"
        | some len =>
          match mem.readBytes ptr len with
          | none => .error "failed to read string bytes"
          | some bs => .ok (.str (utf16OfBytes bs))) := rfl

theorem writeField_spec (env : Env) (st : WasmState) (typ : String) (addr : Nat)
    (v : HostVal)
    (hwf : wfVal typ v = true)
    (hfail : ∀ n, env.allocFail n = none)
    (hok : ∀ x, st.mem.ok x = true)
    (haddr : addr + hostTypeSize typ ≤ st.nextAlloc) :
    ∃ ptr st', writeField env st typ addr v = .ok (ptr, st') ∧
      (∀ x, st'.mem.ok x = true) ∧ FieldWritten typ addr v st st' ptr := by
  unfold wfVal at hwf
  by_cases ht32 : typ = "u32"
  · subst ht32
    cases v with
    | u64 n => simp at hwf
    | str cs => simp at hwf
    | u32 n =>
      have hn : n < 2 ^ 32 := by simpa using hwf
      have hts : hostTypeSize "u32" = 4 := rfl
      rw [hts] at haddr
      have hw : st.mem.writeUint32Le addr n =
          some (st.mem.setBytes addr (leBytes 4 n)) :=
        writeBytes_of_ok st.mem addr (leBytes 4 n) hok
      refine ⟨0, { st with mem := st.mem.setBytes addr (leBytes 4 n) }, ?_, ?_, ?_⟩
      · rw [writeField_u32, hw]
      · intro x
        dsimp only
        rw [setBytes_ok]
        exact hok x
      · refine ⟨le_refl _, ?_, rfl, rfl, ?_, ?_, rfl, fun h => absurd rfl h⟩
        · intro x
          dsimp only
          rw [setBytes_ok]
        · intro x hx1 hx2
          dsimp only
          rw [setBytes_bytes, if_neg (by rw [leBytes_length]; rw [hts] at hx2; omega)]
        · intro hb m' hagree hok'
          have hr : m'.readUint32Le addr =
              (st.mem.setBytes addr (leBytes 4 n)).readUint32Le addr := by
            apply readUint32Le_congr_ok
            · intro x h1 h2
              exact hagree x (Or.inl ⟨h1, by rw [hts]; omega⟩)
            · intro x
              rw [setBytes_ok]
              exact hok x
            · exact hok'
          rw [readUint32Le_setBytes_leBytes st.mem addr n hok,
            Nat.mod_eq_of_lt hn] at hr
          rw [readField_u32, hr]
  · by_cases ht64 : typ = "u64"
    · subst ht64
      cases v with
      | u32 n => simp at hwf
      | str cs => simp at hwf
      | u64 n =>
        have hn : n < 2 ^ 64 := by simpa using hwf
        have hts : hostTypeSize "u64" = 8 := rfl
        rw [hts] at haddr
        have hw : st.mem.writeUint64Le addr n =
            some (st.mem.setBytes addr (leBytes 8 n)) :=
          writeBytes_of_ok st.mem addr (leBytes 8 n) hok
        refine ⟨0, { st with mem := st.mem.setBytes addr (leBytes 8 n) }, ?_, ?_, ?_⟩
        · rw [writeField_u64, hw]
        · intro x
          dsimp only
          rw [setBytes_ok]
          exact hok x
        · refine ⟨le_refl _, ?_, rfl, rfl, ?_, ?_, rfl, fun h => absurd rfl h⟩
          · intro x
            dsimp only
            rw [setBytes_ok]
          · intro x hx1 hx2
            dsimp only
            rw [setBytes_bytes, if_neg (by rw [leBytes_length]; rw [hts] at hx2; omega)]
          · intro hb m' hagree hok'
            have hread8 : m'.readBytes addr 8 =
                (st.mem.setBytes addr (leBytes 8 n)).readBytes addr 8 := by
              apply readBytes_congr_ok
              · intro x h1 h2
                exact hagree x (Or.inl ⟨h1, by rw [hts]; omega⟩)
              · intro x
                rw [setBytes_ok]
                exact hok x
              · exact hok'
            have hr : m'.readUint64Le addr = some n := by
              unfold Memory.readUint64Le
              rw [hread8]
              have h2 := readUint64Le_setBytes_leBytes st.mem addr n hok
              unfold Memory.readUint64Le at h2
              rw [h2, Nat.mod_eq_of_lt hn]
            rw [readField_u64, hr]
    · by_cases hts' : typ = "string"
      · subst hts'
        cases v with
        | u32 n => simp at hwf
        | u64 n => simp at hwf
        | str cs =>
          have hunits : ∀ c ∈ cs, c < 2 ^ 16 := by
            have := by simpa using hwf
            exact fun c hc => this.1 c hc
          have hlen : cs.length < 2 ^ 31 := by
            have := by simpa using hwf
            exact this.2
          have hts : hostTypeSize "string" = 4 := rfl
          rw [hts] at haddr
          obtain ⟨stR, hrunR, hnaR, hpinR, hunpinR, hokR, hframeR, hlenR, hbsR⟩ :=
            writeRawBytes_spec env st (utf16Bytes cs) 2 hfail hok
          have hokR' : ∀ x, stR.mem.ok x = true := fun x => by rw [hokR]; exact hok x
          have hbl : (utf16Bytes cs).length = 2 * cs.length := utf16Bytes_length cs
          have hw : stR.mem.writeUint32Le addr (st.nextAlloc + 4) =
              some (stR.mem.setBytes addr (leBytes 4 (st.nextAlloc + 4))) :=
            writeBytes_of_ok stR.mem addr (leBytes 4 (st.nextAlloc + 4)) hokR'
          refine ⟨st.nextAlloc + 4,
            { stR with mem := stR.mem.setBytes addr (leBytes 4 (st.nextAlloc + 4)) },
            ?_, ?_, ?_⟩
          · simp only [writeField_str, hrunR, hw]
          · intro x
            dsimp only
            rw [setBytes_ok]
            exact hokR' x
          · refine ⟨by dsimp only; omega, ?_, by dsimp only; exact hpinR,
              by dsimp only; exact hunpinR, ?_, ?_, by rw [if_pos rfl],
              fun _ => by dsimp only; omega⟩
            · intro x
              dsimp only
              rw [setBytes_ok]
              exact hokR x
            · intro x hx1 hx2
              dsimp only
              rw [setBytes_bytes, if_neg (by rw [leBytes_length]; rw [hts] at hx2; omega)]
              exact hframeR x hx1
            · intro hb m' hagree hok'
              rw [hts] at hagree
              dsimp only at hagree hb
              have hptr32 : st.nextAlloc + 4 < 2 ^ 32 := by omega
              have hr1 : m'.readUint32Le addr = some (st.nextAlloc + 4) := by
                have hcg : m'.readUint32Le addr =
                    (stR.mem.setBytes addr (leBytes 4 (st.nextAlloc + 4))).readUint32Le
                      addr := by
                  apply readUint32Le_congr_ok
                  · intro x h1 h2
                    exact hagree x (Or.inl ⟨h1, by omega⟩)
                  · intro x
                    rw [setBytes_ok]
                    exact hokR' x
                  · exact hok'
                rw [hcg, readUint32Le_setBytes_leBytes stR.mem addr _ hokR',
                  Nat.mod_eq_of_lt hptr32]
              have hr2 : u32Sub4 (st.nextAlloc + 4) = st.nextAlloc :=
                u32Sub4_eq (st.nextAlloc + 4) (by omega) hptr32
              have hr3 : m'.readUint32Le st.nextAlloc = some (utf16Bytes cs).length := by
                have hcg : m'.readUint32Le st.nextAlloc =
                    stR.mem.readUint32Le st.nextAlloc := by
                  apply readUint32Le_congr_ok
                  · intro x h1 h2
                    rw [hagree x (Or.inr ⟨h1, by omega⟩), setBytes_bytes,
                      if_neg (by rw [leBytes_length]; omega)]
                  · exact hokR'
                  · exact hok'
                rw [hcg, hlenR, Nat.mod_eq_of_lt (by rw [hbl]; omega)]
              have hr4 : m'.readBytes (st.nextAlloc + 4) (utf16Bytes cs).length =
                  some (utf16Bytes cs) := by
                have hcg : m'.readBytes (st.nextAlloc + 4) (utf16Bytes cs).length =
                    stR.mem.readBytes (st.nextAlloc + 4) (utf16Bytes cs).length := by
                  apply readBytes_congr_ok
                  · intro x h1 h2
                    rw [hagree x (Or.inr ⟨by omega, by omega⟩), setBytes_bytes,
                      if_neg (by rw [leBytes_length]; omega)]
                  · exact hokR'
                  · exact hok'
                rw [hcg, hbsR]
              simp only [readField_str, hr1, hr2, hr3, hr4,
                utf16OfBytes_utf16Bytes cs hunits]
      · rw [if_neg ht32, if_neg ht64, if_neg hts'] at hwf
        exact absurd hwf (by simp)

theorem wfVal_str_imp (kt : String) (cs : List Nat)
    (h : wfVal kt (.str cs) = true) : kt = "string" := by
  unfold wfVal at h
  by_cases h1 : kt = "u32"
  · subst h1
    simp at h
  · by_cases h2 : kt = "u64"
    · subst h2
      simp at h
    · by_cases h3 : kt = "string"
      · exact h3
      · rw [if_neg h1, if_neg h2, if_neg h3] at h
        exact absurd h (by simp)

theorem writeMapEntryKey_spec (env : Env) (kt : String) (addr : Nat) (key : HostVal)
    (st : WasmState)
    (hwf : wfVal kt key = true)
    (hfail : ∀ n, env.allocFail n = none)
    (hok : ∀ x, st.mem.ok x = true)
    (haddr : addr + hostTypeSize kt ≤ st.nextAlloc) :
    ∃ ptr st', writeMapEntryKey env kt addr key st = (st', .ok (hashOf env key, ptr)) ∧
      (∀ x, st'.mem.ok x = true) ∧ FieldWritten kt addr key st st' ptr := by
  cases key with
  | u32 n =>
    obtain ⟨ptr, st', hrun, hok', fw⟩ :=
      writeField_spec env st kt addr (.u32 n) hwf hfail hok haddr
    refine ⟨ptr, st', ?_, hok', fw⟩
    simp only [writeMapEntryKey, hrun, hashOf]
  | u64 n =>
    obtain ⟨ptr, st', hrun, hok', fw⟩ :=
      writeField_spec env st kt addr (.u64 n) hwf hfail hok haddr
    refine ⟨ptr, st', ?_, hok', fw⟩
    simp only [writeMapEntryKey, hrun, hashOf]
  | str cs =>
    obtain rfl := wfVal_str_imp kt cs hwf
    obtain ⟨ptr, st', hrun, hok', fw⟩ :=
      writeField_spec env st "string" addr (.str cs) hwf hfail hok haddr
    rw [writeField_str] at hrun
    cases hR : writeRawBytes env st (utf16Bytes cs) 2 with
    | error e =>
      rw [hR] at hrun
      exact absurd hrun (by simp)
    | ok pr =>
      obtain ⟨p2, st2⟩ := pr
      simp only [hR] at hrun
      cases hW : st2.mem.writeUint32Le addr p2 with
      | none =>
        simp only [hW] at hrun
        exact absurd hrun (by simp)
      | some m =>
        simp only [hW] at hrun
        injection hrun with hpair
        injection hpair with he1 he2
        subst he1
        subst he2
        refine ⟨p2, _, ?_, hok', fw⟩
        simp only [writeMapEntryKey, hR, hW, hashOf]

theorem layoutFacts (kt vt : String)
    (hkt : kt ∈ ["u32", "u64", "string"]) (hvt : vt ∈ ["u32", "u64", "string"]) :
    getSizeForOffset kt = hostTypeSize kt ∧ getSizeForOffset vt = hostTypeSize vt ∧
    getSizeForOffset vt + getSizeForOffset kt + 4 ≤
      entrySizeCalc (hostTypeSize kt) (hostTypeSize vt) ∧
    12 ≤ entrySizeCalc (hostTypeSize kt) (hostTypeSize vt) ∧
    entrySizeCalc (hostTypeSize kt) (hostTypeSize vt) ≤ 24 := by
  simp only [List.mem_cons, List.not_mem_nil, or_false] at hkt hvt
  rcases hkt with rfl | rfl | rfl <;> rcases hvt with rfl | rfl | rfl <;>
    exact ⟨rfl, rfl, by decide, by decide, by decide⟩

theorem bucketHeadAux_append (env : Env) (mask ebo es b : Nat) (ks : List HostVal)
    (k : HostVal) : ∀ i acc : Nat,
    bucketHeadAux env mask ebo es b (ks ++ [k]) i acc =
      (if bucketOf env mask k = b then ebo + es * (i + ks.length)
       else bucketHeadAux env mask ebo es b ks i acc) := by
  induction ks with
  | nil =>
    intro i acc
    simp [bucketHeadAux]
  | cons k0 t ih =>
    intro i acc
    simp only [List.cons_append, bucketHeadAux, List.append_eq]
    rw [ih]
    by_cases h : bucketOf env mask k = b
    · rw [if_pos h, if_pos h]
      have hl : i + 1 + t.length = i + (k0 :: t).length := by
        simp [List.length_cons]
        omega
      rw [hl]
    · rw [if_neg h, if_neg h]

theorem bucketHead_append (env : Env) (mask ebo es : Nat) (ks : List HostVal)
    (k : HostVal) (b : Nat) :
    bucketHead env mask ebo es (ks ++ [k]) b =
      if bucketOf env mask k = b then ebo + es * ks.length
      else bucketHead env mask ebo es ks b := by
  unfold bucketHead
  rw [bucketHeadAux_append]
  simp

theorem getD_append_length {α : Type} (l1 l2 : List α) (d : α) :
    (l1 ++ l2).getD l1.length d = l2.getD 0 d := by
  induction l1 with
  | nil => simp
  | cons a t ih => simpa using ih

theorem taggedNextVal_at (env : Env) (mask ebo es : Nat) (prev : List HostVal)
    (k : HostVal) (ks2 : List HostVal) :
    taggedNextVal env mask ebo es (prev ++ k :: ks2) prev.length =
      bucketHead env mask ebo es prev (bucketOf env mask k) := by
  unfold taggedNextVal
  rw [List.take_left, getD_append_length, List.getD_cons_zero]

/-- Postconditions of running the entry loop of `writeMap` over
`pairs` starting at entry index `i` (the keys `prev`, with
`prev.length = i`, having already been inserted): the allocator only
moves forward, all memory below the starting cursor outside the bucket
region and the remaining entry slots is untouched, the pin trace grows
by exactly the allocated key/value pointers (strictly increasing,
fresh), every bucket word holds the head of its LIFO chain, every
entry's tagged-next word holds the bucket head from just before its
insertion, and every written entry reads back from any memory that
agrees with the result on the entry slots and the fresh range. -/
structure LoopDone (env : Env) (kt vt : String)
    (ebo bbo es mask vo tno i : Nat) (pairs : List (HostVal × HostVal))
    (prev : List HostVal) (st st' : WasmState) (newPins : List Nat) : Prop where
  mono : st.nextAlloc ≤ st'.nextAlloc
  okEq : ∀ x, st'.mem.ok x = true
  pinsLog : st'.pinLog = st.pinLog ++ newPins
  unpinsLog : st'.unpinLog = st.unpinLog
  pinsLen : newPins.length = (if kt = "string" then pairs.length else 0) +
      (if vt = "string" then pairs.length else 0)
  pinsSorted : newPins.Pairwise (· < ·)
  pinsBounds : ∀ p ∈ newPins, st.nextAlloc + 4 ≤ p ∧ p ≤ st'.nextAlloc
  frame : ∀ x, x < st.nextAlloc →
      ¬(bbo ≤ x ∧ x < bbo + 4 * (mask + 1)) →
      ¬(ebo + es * i ≤ x ∧ x < ebo + es * (i + pairs.length)) →
      st'.mem.bytes x = st.mem.bytes x
  buckets : ∀ b, b ≤ mask → st'.mem.readUint32Le (bbo + 4 * b) =
      some (bucketHead env mask ebo es (prev ++ pairs.map Prod.fst) b % 2 ^ 32)
  tagged : ∀ j, i ≤ j → j < i + pairs.length →
      st'.mem.readUint32Le (ebo + es * j + tno) =
        some (taggedNextVal env mask ebo es (prev ++ pairs.map Prod.fst) j % 2 ^ 32)
  readback : ∀ m' : Memory, st'.nextAlloc < 2 ^ 32 →
      (∀ x, ((ebo + es * i ≤ x ∧ x < ebo + es * (i + pairs.length)) ∨
        (st.nextAlloc ≤ x ∧ x < st'.nextAlloc)) → m'.bytes x = st'.mem.bytes x) →
      (∀ x, m'.ok x = true) →
      ∀ j, j < pairs.length →
        readField m' kt (ebo + es * (i + j)) =
          .ok (pairs.getD j (.u32 0, .u32 0)).1 ∧
        readField m' vt (ebo + es * (i + j) + vo) =
          .ok (pairs.getD j (.u32 0, .u32 0)).2

theorem writeMapLoop_spec (env : Env) (kt vt : String)
    (ebo bbo es mask vo tno : Nat)
    (hkt : kt ∈ ["u32", "u64", "string"]) (hvt : vt ∈ ["u32", "u64", "string"])
    (hvo : vo = getSizeForOffset kt) (htno : tno = getSizeForOffset vt + vo)
    (hes : es = entrySizeCalc (hostTypeSize kt) (hostTypeSize vt))
    (hfail : NoFailEnv env) :
    ∀ (pairs : List (HostVal × HostVal)) (i : Nat) (st : WasmState)
      (pins : List Nat) (prev : List HostVal),
      prev.length = i →
      (∀ p ∈ pairs, wfVal kt p.1 = true ∧ wfVal vt p.2 = true) →
      (∀ x, st.mem.ok x = true) →
      ebo + es * (i + pairs.length) ≤ st.nextAlloc →
      bbo + 4 * (mask + 1) + 4 ≤ ebo →
      (∀ b, b ≤ mask → st.mem.readUint32Le (bbo + 4 * b) =
        some (bucketHead env mask ebo es prev b % 2 ^ 32)) →
      ∃ st' newPins,
        writeMapLoop env kt vt ebo bbo es mask vo tno pairs i st pins =
          (st', pins ++ newPins, none) ∧
        LoopDone env kt vt ebo bbo es mask vo tno i pairs prev st st' newPins := by
  obtain ⟨hg1, hg2, hg3, hg4, hg5⟩ := layoutFacts kt vt hkt hvt
  have hvo' : vo = hostTypeSize kt := by rw [hvo, hg1]
  have htno' : tno = hostTypeSize vt + vo := by rw [htno, hg2]
  have htne : tno + 4 ≤ es := by rw [hes]; omega
  have hes12 : 12 ≤ es := by rw [hes]; omega
  intro pairs
  induction pairs with
  | nil =>
    intro i st pins prev hprev hwf hok hslots hbkt hbuckets
    refine ⟨st, [], by simp [writeMapLoop], le_refl _, hok, by simp, rfl, by simp,
      by simp, by simp, fun x _ _ _ => rfl, ?_, ?_, ?_⟩
    · intro b hb
      simpa using hbuckets b hb
    · intro j hj1 hj2
      simp only [List.length_nil, Nat.add_zero] at hj2
      omega
    · intro m' _ _ _ j hj
      exact absurd hj (by simp)
  | cons kv rest ih =>
    obtain ⟨key, value⟩ := kv
    intro i st pins prev hprev hwf hok hslots hbkt hbuckets
    have hwfk : wfVal kt key = true := (hwf (key, value) (by simp)).1
    have hwfv : wfVal vt value = true := (hwf (key, value) (by simp)).2
    have hm1 : es * (i + 1) = es * i + es := by ring
    have hm2 : es * (i + (rest.length + 1)) = es * i + es + es * rest.length := by ring
    have hm3 : es * (i + 1 + rest.length) = es * i + es + es * rest.length := by ring
    have hlen : ((key, value) :: rest).length = rest.length + 1 := by simp
    rw [hlen] at hslots
    -- Step A: write the key.
    obtain ⟨ptrK, stK, hkrun, hokK, fwK⟩ := writeMapEntryKey_spec env kt
      (ebo + es * i) key st hwfk hfail.1 hok (by rw [← hvo']; omega)
    -- Step B: pin the key allocation if any.
    obtain ⟨stK2, kps, hkpin, hK2mem, hK2na, hK2ac, hK2unpin, hK2pin, hkps⟩ :=
      pinIfAllocated_spec env stK pins ptrK hfail.2.1
    have hokK2 : ∀ x, stK2.mem.ok x = true := fun x => by rw [hK2mem]; exact hokK x
    -- Step C: write the value.
    obtain ⟨ptrV, stV, hvrun, hokV, fwV⟩ := writeField_spec env stK2 vt
      (ebo + es * i + vo) value hwfv hfail.1 hokK2
      (by rw [hK2na]; have hmono := fwK.mono; omega)
    -- Step D: pin the value allocation if any.
    obtain ⟨stV2, vps, hvpin, hV2mem, hV2na, hV2ac, hV2unpin, hV2pin, hvps⟩ :=
      pinIfAllocated_spec env stV (pins ++ kps) ptrV hfail.2.1
    have hokV2 : ∀ x, stV2.mem.ok x = true := fun x => by rw [hV2mem]; exact hokV x
    -- Bytes below the starting cursor outside the key and value
    -- sub-regions are untouched up to the value pin.
    have hPres1 : ∀ x, x < st.nextAlloc →
        (x < ebo + es * i ∨ ebo + es * i + tno ≤ x) →
        stV2.mem.bytes x = st.mem.bytes x := by
      intro x hx hx2
      rw [hV2mem]
      have h1 : stV.mem.bytes x = stK2.mem.bytes x := by
        apply fwV.frame
        · rw [hK2na]
          have := fwK.mono
          omega
        · rcases hx2 with h | h
          · left
            omega
          · right
            omega
      rw [h1, hK2mem]
      apply fwK.frame x hx
      rcases hx2 with h | h
      · left
        exact h
      · right
        omega
    -- The bucket word for this key still holds the head recorded in
    -- the invariant.
    have hbk : (hashOf env key &&& mask) ≤ mask := Nat.and_le_right
    have hble : 4 * (hashOf env key &&& mask) + 4 ≤ 4 * (mask + 1) := by
      have := Nat.mul_le_mul (le_refl 4)
        (show (hashOf env key &&& mask) + 1 ≤ mask + 1 by omega)
      omega
    have hmul4 : (hashOf env key &&& mask) * 4 = 4 * (hashOf env key &&& mask) := by ring
    have hbread : stV2.mem.readUint32Le (bbo + (hashOf env key &&& mask) * 4) =
        some (bucketHead env mask ebo es prev (hashOf env key &&& mask) % 2 ^ 32) := by
      have hcg : stV2.mem.readUint32Le (bbo + (hashOf env key &&& mask) * 4) =
          st.mem.readUint32Le (bbo + (hashOf env key &&& mask) * 4) := by
        apply readUint32Le_congr_ok
        · intro x h1 h2
          apply hPres1 x ?_ ?_
          · omega
          · left
            omega
        · exact hok
        · exact hokV2
      rw [hcg, show bbo + (hashOf env key &&& mask) * 4 =
        bbo + 4 * (hashOf env key &&& mask) from by ring]
      exact hbuckets (hashOf env key &&& mask) hbk
    -- The tagged-next and bucket-head stores.
    have hwT : stV2.mem.writeUint32Le (ebo + es * i + tno)
        (bucketHead env mask ebo es prev (hashOf env key &&& mask) % 2 ^ 32) =
        some (stV2.mem.setBytes (ebo + es * i + tno) (leBytes 4
          (bucketHead env mask ebo es prev (hashOf env key &&& mask) % 2 ^ 32))) :=
      writeBytes_of_ok _ _ _ hokV2
    have hokT : ∀ x, (stV2.mem.setBytes (ebo + es * i + tno) (leBytes 4
        (bucketHead env mask ebo es prev (hashOf env key &&& mask) % 2 ^ 32))).ok
          x = true := by
      intro x
      rw [setBytes_ok]
      exact hokV2 x
    have hwB : (stV2.mem.setBytes (ebo + es * i + tno) (leBytes 4
        (bucketHead env mask ebo es prev (hashOf env key &&& mask) % 2 ^ 32))).writeUint32Le
          (bbo + (hashOf env key &&& mask) * 4) (ebo + es * i) =
        some ((stV2.mem.setBytes (ebo + es * i + tno) (leBytes 4
          (bucketHead env mask ebo es prev (hashOf env key &&& mask) % 2 ^ 32))).setBytes
            (bbo + (hashOf env key &&& mask) * 4) (leBytes 4 (ebo + es * i))) :=
      writeBytes_of_ok _ _ _ hokT
    have hokB : ∀ x, ((stV2.mem.setBytes (ebo + es * i + tno) (leBytes 4
        (bucketHead env mask ebo es prev (hashOf env key &&& mask) % 2 ^ 32))).setBytes
          (bbo + (hashOf env key &&& mask) * 4) (leBytes 4 (ebo + es * i))).ok
            x = true := by
      intro x
      rw [setBytes_ok]
      exact hokT x
    have hstep : writeMapLoop env kt vt ebo bbo es mask vo tno
        ((key, value) :: rest) i st pins =
        writeMapLoop env kt vt ebo bbo es mask vo tno rest (i + 1)
          { stV2 with
            mem := ((stV2.mem.setBytes (ebo + es * i + tno) (leBytes 4
              (bucketHead env mask ebo es prev (hashOf env key &&& mask) % 2 ^ 32))).setBytes
                (bbo + (hashOf env key &&& mask) * 4) (leBytes 4 (ebo + es * i))) }
          ((pins ++ kps) ++ vps) := by
      simp only [writeMapLoop, hkrun, hkpin, hvrun, hvpin, hbread, hwT, hwB]
    -- Bucket invariant for the next iteration.
    have hBucketB : ∀ b, b ≤ mask →
        ((stV2.mem.setBytes (ebo + es * i + tno) (leBytes 4
          (bucketHead env mask ebo es prev (hashOf env key &&& mask) % 2 ^ 32))).setBytes
            (bbo + (hashOf env key &&& mask) * 4)
            (leBytes 4 (ebo + es * i))).readUint32Le (bbo + 4 * b) =
          some (bucketHead env mask ebo es (prev ++ [key]) b % 2 ^ 32) := by
      intro b hb
      by_cases hbb : b = hashOf env key &&& mask
      · rw [hbb, show bbo + 4 * (hashOf env key &&& mask) =
            bbo + (hashOf env key &&& mask) * 4 from by ring,
          readUint32Le_setBytes_leBytes _ _ _ hokT]
        congr 1
        rw [bucketHead_append,
          if_pos (show bucketOf env mask key = hashOf env key &&& mask from rfl), hprev]
      · have hb4 : 4 * b + 4 ≤ 4 * (mask + 1) := by
          have := Nat.mul_le_mul (le_refl 4) (show b + 1 ≤ mask + 1 by omega)
          omega
        have hcg : ((stV2.mem.setBytes (ebo + es * i + tno) (leBytes 4
            (bucketHead env mask ebo es prev (hashOf env key &&& mask) % 2 ^ 32))).setBytes
              (bbo + (hashOf env key &&& mask) * 4)
              (leBytes 4 (ebo + es * i))).readUint32Le (bbo + 4 * b) =
            st.mem.readUint32Le (bbo + 4 * b) := by
          apply readUint32Le_congr_ok
          · intro x h1 h2
            have hdisj : ¬(bbo + (hashOf env key &&& mask) * 4 ≤ x ∧
                x < bbo + (hashOf env key &&& mask) * 4 + 4) := by
              rcases Nat.lt_or_ge b (hashOf env key &&& mask) with hlt | hge
              · have := Nat.mul_le_mul (le_refl 4)
                  (show b + 1 ≤ (hashOf env key &&& mask) from hlt)
                omega
              · have hgt : (hashOf env key &&& mask) < b := by omega
                have := Nat.mul_le_mul (le_refl 4)
                  (show (hashOf env key &&& mask) + 1 ≤ b from hgt)
                omega
            have htag : ¬(ebo + es * i + tno ≤ x ∧ x < ebo + es * i + tno + 4) := by
              omega
            rw [setBytes_bytes, leBytes_length, if_neg hdisj, setBytes_bytes,
              leBytes_length, if_neg htag]
            exact hPres1 x (by omega) (Or.inl (by omega))
          · exact hok
          · exact hokB
        rw [hcg, hbuckets b hb, bucketHead_append,
          if_neg (fun hc => hbb (by rw [← hc]; rfl))]
    -- Run the rest of the loop.
    obtain ⟨stF, restPins, hrestrun, LD⟩ := ih (i + 1)
      { stV2 with
        mem := ((stV2.mem.setBytes (ebo + es * i + tno) (leBytes 4
          (bucketHead env mask ebo es prev (hashOf env key &&& mask) % 2 ^ 32))).setBytes
            (bbo + (hashOf env key &&& mask) * 4) (leBytes 4 (ebo + es * i))) }
      ((pins ++ kps) ++ vps) (prev ++ [key])
      (by simp [hprev])
      (fun p hp => hwf p (by simp [hp]))
      hokB
      (by
        show ebo + es * (i + 1 + rest.length) ≤ stV2.nextAlloc
        rw [hV2na]
        have h1 := fwV.mono
        rw [hK2na] at h1
        have h2 := fwK.mono
        omega)
      hbkt
      hBucketB
    have hnaK : st.nextAlloc ≤ stK.nextAlloc := fwK.mono
    have hnaV : stK.nextAlloc ≤ stV.nextAlloc := by
      rw [← hK2na]
      exact fwV.mono
    have hnaF : stV2.nextAlloc ≤ stF.nextAlloc := LD.mono
    refine ⟨stF, kps ++ (vps ++ restPins), ?_, ?_⟩
    · rw [hstep, hrestrun]
      simp [List.append_assoc]
    have hMB : ∀ x, ¬(ebo + es * i + tno ≤ x ∧ x < ebo + es * i + tno + 4) →
        ¬(bbo + (hashOf env key &&& mask) * 4 ≤ x ∧
          x < bbo + (hashOf env key &&& mask) * 4 + 4) →
        ((stV2.mem.setBytes (ebo + es * i + tno) (leBytes 4
          (bucketHead env mask ebo es prev (hashOf env key &&& mask) % 2 ^ 32))).setBytes
            (bbo + (hashOf env key &&& mask) * 4)
            (leBytes 4 (ebo + es * i))).bytes x = stV2.mem.bytes x := by
      intro x h1 h2
      rw [setBytes_bytes, leBytes_length, if_neg h2, setBytes_bytes, leBytes_length,
        if_neg h1]
    refine ⟨?_, LD.okEq, ?_, ?_, ?_, ?_, ?_, ?_, ?_, ?_, ?_⟩
    · show st.nextAlloc ≤ stF.nextAlloc
      omega
    · have h := LD.pinsLog
      rw [h]
      show stV2.pinLog ++ restPins = st.pinLog ++ (kps ++ (vps ++ restPins))
      rw [hV2pin, fwV.pinsEq, hK2pin, fwK.pinsEq]
      simp [List.append_assoc]
    · have h := LD.unpinsLog
      rw [h]
      show stV2.unpinLog = st.unpinLog
      rw [hV2unpin, fwV.unpinsEq, hK2unpin, fwK.unpinsEq]
    · have hrl := LD.pinsLen
      simp only [List.length_append, List.length_cons]
      rw [hrl, hkps, hvps, fwK.ptrEq, fwV.ptrEq]
      by_cases h1 : kt = "string" <;> by_cases h2 : vt = "string" <;>
        simp [h1, h2] <;> omega
    · rw [List.pairwise_append]
      refine ⟨?_, ?_, ?_⟩
      · rw [hkps]
        split <;> simp
      · rw [List.pairwise_append]
        refine ⟨?_, LD.pinsSorted, ?_⟩
        · rw [hvps]
          split <;> simp
        · intro a ha b hbmem
          rw [hvps] at ha
          have hbb1 : stV2.nextAlloc + 4 ≤ b := (LD.pinsBounds b hbmem).1
          by_cases hz : ptrV = 0
          · rw [if_pos hz] at ha
            simp at ha
          · rw [if_neg hz] at ha
            simp at ha
            subst ha
            have hgrow := fwV.naGrow hz
            have hp := fwV.ptrEq
            by_cases hvs : vt = "string"
            · rw [if_pos hvs] at hp
              omega
            · rw [if_neg hvs] at hp
              exact absurd hp hz
      · intro a ha b hbmem
        rw [hkps] at ha
        by_cases hz : ptrK = 0
        · rw [if_pos hz] at ha
          simp at ha
        · rw [if_neg hz] at ha
          simp at ha
          subst ha
          have hgrowK := fwK.naGrow hz
          have hpK := fwK.ptrEq
          by_cases hks' : kt = "string"
          · rw [if_pos hks'] at hpK
            rcases List.mem_append.mp hbmem with hbv | hbr
            · rw [hvps] at hbv
              by_cases hz2 : ptrV = 0
              · rw [if_pos hz2] at hbv
                simp at hbv
              · rw [if_neg hz2] at hbv
                simp at hbv
                subst hbv
                have hpV := fwV.ptrEq
                by_cases hvs : vt = "string"
                · rw [if_pos hvs] at hpV
                  omega
                · rw [if_neg hvs] at hpV
                  exact absurd hpV hz2
            · have hbb1 : stV2.nextAlloc + 4 ≤ b := (LD.pinsBounds b hbr).1
              omega
          · rw [if_neg hks'] at hpK
            exact absurd hpK hz
    · intro p hp
      rcases List.mem_append.mp hp with hk | h2
      · rw [hkps] at hk
        by_cases hz : ptrK = 0
        · rw [if_pos hz] at hk
          simp at hk
        · rw [if_neg hz] at hk
          simp at hk
          subst hk
          have hpK := fwK.ptrEq
          have hgK := fwK.naGrow hz
          by_cases hks' : kt = "string"
          · rw [if_pos hks'] at hpK
            exact ⟨by omega, by omega⟩
          · rw [if_neg hks'] at hpK
            exact absurd hpK hz
      · rcases List.mem_append.mp h2 with hv | hr
        · rw [hvps] at hv
          by_cases hz : ptrV = 0
          · rw [if_pos hz] at hv
            simp at hv
          · rw [if_neg hz] at hv
            simp at hv
            subst hv
            have hpV := fwV.ptrEq
            have hgV := fwV.naGrow hz
            by_cases hvs : vt = "string"
            · rw [if_pos hvs] at hpV
              exact ⟨by omega, by omega⟩
            · rw [if_neg hvs] at hpV
              exact absurd hpV hz
        · have hbb := LD.pinsBounds p hr
          have hbb1 : stV2.nextAlloc + 4 ≤ p := hbb.1
          exact ⟨by omega, hbb.2⟩
    · intro x hx hnb hns
      simp only [List.length_cons] at hns
      have h1 : stF.mem.bytes x = ((stV2.mem.setBytes (ebo + es * i + tno) (leBytes 4
          (bucketHead env mask ebo es prev (hashOf env key &&& mask) % 2 ^ 32))).setBytes
            (bbo + (hashOf env key &&& mask) * 4)
            (leBytes 4 (ebo + es * i))).bytes x := by
        apply LD.frame x ?_ hnb ?_
        · show x < stV2.nextAlloc
          omega
        · omega
      rw [h1, hMB x (by omega) (by omega)]
      exact hPres1 x hx (by omega)
    · intro b hb
      have h := LD.buckets b hb
      have hl : (prev ++ [key]) ++ rest.map Prod.fst =
          prev ++ ((key, value) :: rest).map Prod.fst := by simp
      rw [hl] at h
      exact h
    · intro j hj1 hj2
      simp only [List.length_cons] at hj2
      rcases Nat.eq_or_lt_of_le hj1 with heq | hlt
      · subst heq
        have harg : stF.mem.readUint32Le (ebo + es * i + tno) =
            ((stV2.mem.setBytes (ebo + es * i + tno) (leBytes 4
              (bucketHead env mask ebo es prev (hashOf env key &&& mask) % 2 ^ 32))).setBytes
                (bbo + (hashOf env key &&& mask) * 4)
                (leBytes 4 (ebo + es * i))).readUint32Le (ebo + es * i + tno) := by
          apply readUint32Le_congr_ok
          · intro x h1 h2
            apply LD.frame x ?_ ?_ ?_
            · show x < stV2.nextAlloc
              omega
            · omega
            · omega
          · exact hokB
          · exact LD.okEq
        rw [harg]
        have h2 : ((stV2.mem.setBytes (ebo + es * i + tno) (leBytes 4
            (bucketHead env mask ebo es prev (hashOf env key &&& mask) % 2 ^ 32))).setBytes
              (bbo + (hashOf env key &&& mask) * 4)
              (leBytes 4 (ebo + es * i))).readUint32Le (ebo + es * i + tno) =
            (stV2.mem.setBytes (ebo + es * i + tno) (leBytes 4
              (bucketHead env mask ebo es prev
                (hashOf env key &&& mask) % 2 ^ 32))).readUint32Le
                  (ebo + es * i + tno) := by
          apply readUint32Le_congr_ok
          · intro x h1 h2
            rw [setBytes_bytes, leBytes_length, if_neg (by omega)]
          · exact hokT
          · exact hokB
        rw [h2, readUint32Le_setBytes_leBytes _ _ _ hokV2]
        congr 1
        rw [Nat.mod_mod_of_dvd _ dvd_rfl]
        congr 1
        simp only [List.map_cons]
        rw [← hprev, taggedNextVal_at]
        rfl
      · have h := LD.tagged j hlt (by omega)
        have hl : (prev ++ [key]) ++ rest.map Prod.fst =
            prev ++ ((key, value) :: rest).map Prod.fst := by simp
        rw [hl] at h
        exact h
    · intro m' hb32 hag hok' j hj
      simp only [List.length_cons] at hj
      have hbK : stK.nextAlloc < 2 ^ 32 := by omega
      have hbV : stV.nextAlloc < 2 ^ 32 := by omega
      have hagF : ∀ x, ((ebo + es * i ≤ x ∧
          x < ebo + es * (i + (rest.length + 1))) ∨
          (st.nextAlloc ≤ x ∧ x < stF.nextAlloc)) →
          m'.bytes x = stF.mem.bytes x := by
        intro x hx
        apply hag x
        simp only [List.length_cons]
        exact hx
      cases j with
      | zero =>
        have hToK : ∀ x, ((ebo + es * i ≤ x ∧
            x < ebo + es * i + hostTypeSize kt) ∨
            (st.nextAlloc ≤ x ∧ x < stK.nextAlloc)) →
            m'.bytes x = stK.mem.bytes x := by
          intro x hx
          have hx' : m'.bytes x = stF.mem.bytes x := by
            apply hagF x
            rcases hx with ⟨h1, h2⟩ | ⟨h1, h2⟩
            · exact Or.inl ⟨h1, by omega⟩
            · exact Or.inr ⟨h1, by omega⟩
          rw [hx']
          have h2 : stF.mem.bytes x = ((stV2.mem.setBytes (ebo + es * i + tno)
              (leBytes 4 (bucketHead env mask ebo es prev
                (hashOf env key &&& mask) % 2 ^ 32))).setBytes
                  (bbo + (hashOf env key &&& mask) * 4)
                  (leBytes 4 (ebo + es * i))).bytes x := by
            apply LD.frame x ?_ ?_ ?_
            · show x < stV2.nextAlloc
              rcases hx with ⟨h1, h2⟩ | ⟨h1, h2⟩ <;> omega
            · rcases hx with ⟨h1, h2⟩ | ⟨h1, h2⟩ <;> omega
            · rcases hx with ⟨h1, h2⟩ | ⟨h1, h2⟩ <;> omega
          rw [h2, hMB x (by rcases hx with ⟨h1, h2⟩ | ⟨h1, h2⟩ <;> omega)
            (by rcases hx with ⟨h1, h2⟩ | ⟨h1, h2⟩ <;> omega), hV2mem]
          have h3 : stV.mem.bytes x = stK2.mem.bytes x := by
            apply fwV.frame x ?_ ?_
            · rcases hx with ⟨h1, h2⟩ | ⟨h1, h2⟩ <;> omega
            · rcases hx with ⟨h1, h2⟩ | ⟨h1, h2⟩
              · left
                omega
              · right
                omega
          rw [h3, hK2mem]
        constructor
        · have hres := fwK.readback hbK m' hToK hok'
          simpa using hres
        · have hToV : ∀ x, ((ebo + es * i + vo ≤ x ∧
              x < ebo + es * i + vo + hostTypeSize vt) ∨
              (stK2.nextAlloc ≤ x ∧ x < stV.nextAlloc)) →
              m'.bytes x = stV.mem.bytes x := by
            intro x hx
            have hx' : m'.bytes x = stF.mem.bytes x := by
              apply hagF x
              rcases hx with ⟨h1, h2⟩ | ⟨h1, h2⟩
              · exact Or.inl ⟨by omega, by omega⟩
              · exact Or.inr ⟨by omega, by omega⟩
            rw [hx']
            have h2 : stF.mem.bytes x = ((stV2.mem.setBytes (ebo + es * i + tno)
                (leBytes 4 (bucketHead env mask ebo es prev
                  (hashOf env key &&& mask) % 2 ^ 32))).setBytes
                    (bbo + (hashOf env key &&& mask) * 4)
                    (leBytes 4 (ebo + es * i))).bytes x := by
              apply LD.frame x ?_ ?_ ?_
              · show x < stV2.nextAlloc
                rcases hx with ⟨h1, h2⟩ | ⟨h1, h2⟩ <;> omega
              · rcases hx with ⟨h1, h2⟩ | ⟨h1, h2⟩ <;> omega
              · rcases hx with ⟨h1, h2⟩ | ⟨h1, h2⟩ <;> omega
            rw [h2, hMB x (by rcases hx with ⟨h1, h2⟩ | ⟨h1, h2⟩ <;> omega)
              (by rcases hx with ⟨h1, h2⟩ | ⟨h1, h2⟩ <;> omega), hV2mem]
          have hres := fwV.readback hbV m' hToV hok'
          simpa using hres
      | succ j' =>
        have hag2 : ∀ x, ((ebo + es * (i + 1) ≤ x ∧
            x < ebo + es * (i + 1 + rest.length)) ∨
            (stV2.nextAlloc ≤ x ∧ x < stF.nextAlloc)) →
            m'.bytes x = stF.mem.bytes x := by
          intro x hx
          apply hagF x
          rcases hx with ⟨h1, h2⟩ | ⟨h1, h2⟩
          · exact Or.inl ⟨by omega, by omega⟩
          · exact Or.inr ⟨by omega, h2⟩
        have h := LD.readback m' hb32 hag2 hok' j' (by omega)
        have hidx : i + 1 + j' = i + (j' + 1) := by omega
        rw [hidx] at h
        simpa using h

/-- With no unpin failures the deferred cleanup unpins every collected
pin in order and leaves the body's results alone. -/
theorem writeMapDefer_spec (env : Env) (hfail : ∀ p, env.unpinFail p = none) :
    ∀ (pins : List Nat) (st : WasmState) (off : Nat),
    writeMapDefer env st pins off none =
      ({ st with unpinLog := st.unpinLog ++ pins }, off, none) := by
  intro pins
  induction pins with
  | nil =>
    intro st off
    simp [writeMapDefer]
  | cons p t ih =>
    intro st off
    simp only [writeMapDefer, unpinWasmMemory, hfail]
    rw [ih]
    simp

/-- A 32-bit read from a zeroed region yields 0. -/
theorem readUint32Le_zero (m : Memory) (a : Nat) (hok : ∀ x, m.ok x = true)
    (hz : ∀ x, a ≤ x → x < a + 4 → m.bytes x = 0) :
    m.readUint32Le a = some 0 := by
  unfold Memory.readUint32Le
  rw [readBytes_of_ok m a 4 hok]
  simp only [Option.map_some']
  rw [show List.range 4 = [0, 1, 2, 3] from rfl]
  simp only [List.map_cons, List.map_nil]
  rw [hz (a + 0) (by omega) (by omega), hz (a + 1) (by omega) (by omega),
    hz (a + 2) (by omega) (by omega), hz (a + 3) (by omega) (by omega)]
  rfl

/-- A bucket head is either 0 or the offset of one of the inserted
entries. -/
theorem bucketHeadAux_cases (env : Env) (mask ebo es b : Nat) :
    ∀ (ks : List HostVal) (i acc : Nat),
    bucketHeadAux env mask ebo es b ks i acc = acc ∨
    ∃ j, i ≤ j ∧ j < i + ks.length ∧
      bucketHeadAux env mask ebo es b ks i acc = ebo + es * j := by
  intro ks
  induction ks with
  | nil =>
    intro i acc
    left
    rfl
  | cons k t ih =>
    intro i acc
    simp only [bucketHeadAux]
    rcases ih (i + 1) (if bucketOf env mask k = b then ebo + es * i else acc) with
      h | ⟨j, hj1, hj2, hj3⟩
    · rw [h]
      by_cases hc : bucketOf env mask k = b
      · right
        exact ⟨i, le_refl _, by simp, by rw [if_pos hc]⟩
      · left
        rw [if_neg hc]
    · right
      refine ⟨j, by omega, ?_, hj3⟩
      simp only [List.length_cons]
      omega

theorem bucketHead_cases (env : Env) (mask ebo es : Nat) (ks : List HostVal) (b : Nat) :
    bucketHead env mask ebo es ks b = 0 ∨
    ∃ j, j < ks.length ∧ bucketHead env mask ebo es ks b = ebo + es * j := by
  unfold bucketHead
  rcases bucketHeadAux_cases env mask ebo es b ks 0 0 with h | ⟨j, _, hj2, hj3⟩
  · left
    exact h
  · right
    exact ⟨j, by omega, hj3⟩

/-- Reconstructing the entry list from per-entry read facts. -/
theorem readMapPairs_of_readback (mem : Memory) (kt vt : String)
    (ebo es vo : Nat) :
    ∀ (l : List (HostVal × HostVal)) (i : Nat),
    (∀ j, j < l.length →
      readField mem kt (ebo + es * (i + j)) = .ok (l.getD j (.u32 0, .u32 0)).1 ∧
      readField mem vt (ebo + es * (i + j) + vo) = .ok (l.getD j (.u32 0, .u32 0)).2) →
    readMapPairs mem kt vt ebo es vo i l.length = .ok l := by
  intro l
  induction l with
  | nil =>
    intro i h
    rfl
  | cons p t ih =>
    intro i h
    have h0 := h 0 (by simp)
    simp only [List.getD_cons_zero, Nat.add_zero] at h0
    have hrest := ih (i + 1) fun j hj => by
      have := h (j + 1) (by simp; omega)
      simp only [List.getD_cons_succ] at this
      rw [show i + (j + 1) = i + 1 + j from by omega] at this
      exact this
    simp only [List.length_cons, readMapPairs]
    rw [show ebo + i * es = ebo + es * i from by ring]
    rw [h0.1, h0.2, hrest]

/-- Folding `SetMapIndex` over pairs with distinct keys appends them in
order. -/
theorem foldl_mapSetIndex_nodup :
    ∀ (l acc : List (HostVal × HostVal)),
    (((acc ++ l).map Prod.fst).Nodup) →
    l.foldl (fun m p => mapSetIndex m p.1 p.2) acc = acc ++ l := by
  intro l
  induction l with
  | nil =>
    intro acc _
    simp
  | cons p t ih =>
    intro acc h
    simp only [List.foldl_cons]
    have hnotin : ∀ q ∈ acc, ¬(q.1 = p.1) := by
      intro q hq hcontra
      rw [List.map_append] at h
      have hdisj := List.disjoint_of_nodup_append h
      exact hdisj (List.mem_map.mpr ⟨q, hq, hcontra⟩) (by simp)
    have hstep : mapSetIndex acc p.1 p.2 = acc ++ [p] := by
      unfold mapSetIndex
      rw [if_neg (by
        simp only [List.any_eq_true, decide_eq_true_eq]
        rintro ⟨q, hq, hc⟩
        exact hnotin q hq hc)]
    rw [hstep, ih (acc ++ [p]) (by simpa [List.append_assoc] using h)]
    simp

/-- Facts about the computed capacities: the buckets capacity is at
least 4 and at least the element count, the mask is one less, and the
entries capacity is at least the element count and at least 4. -/
theorem writeMapCapacities_facts (n bc ec mask : Nat)
    (h : writeMapCapacities n = (bc, ec, mask)) :
    4 ≤ bc ∧ n ≤ bc ∧ mask = bc - 1 ∧ n ≤ ec ∧ 4 ≤ ec := by
  have hs := writeMapCapacitiesLoop_spec n n 4 4 (4 - 1) (by omega) ⟨2, by norm_num⟩ rfl
    (by omega) (fun c hc4 _ hlt => by omega)
  rw [show writeMapCapacitiesLoop n n 4 4 (4 - 1) = writeMapCapacities n from rfl, h] at hs
  dsimp only at hs
  obtain ⟨⟨hb4, hnb, _, _⟩, hmask, hec⟩ := hs
  have hdiv : 4 < n → bc ≤ bc * 8 / 3 := by
    intro _
    have h38 : bc * 3 ≤ bc * 8 := Nat.mul_le_mul (le_refl bc) (by omega)
    exact (Nat.le_div_iff_mul_le (by omega)).mpr h38
  refine ⟨hb4, hnb, hmask, ?_, ?_⟩
  · rw [hec]
    by_cases h4 : 4 < n
    · rw [if_pos h4]
      have := hdiv h4
      omega
    · rw [if_neg h4]
      omega
  · rw [hec]
    by_cases h4 : 4 < n
    · rw [if_pos h4]
      have := hdiv h4
      omega
    · rw [if_neg h4]

/-- On fully mapped memory a 32-bit store succeeds and is a plain
byte-range update. -/
theorem writeUint32Le_ok_simp (m : Memory) (a v : Nat) (h : ∀ x, m.ok x = true) :
    m.writeUint32Le a v = some (m.setBytes a (leBytes 4 v)) := by
  unfold Memory.writeUint32Le
  exact writeBytes_of_ok m a _ h

/-- A 32-bit read is unaffected by a disjoint byte-range store. -/
theorem readUint32Le_setBytes_disjoint (m : Memory) (a b : Nat) (bs : List Nat)
    (hd : a + 4 ≤ b ∨ b + bs.length ≤ a)
    (hok : ∀ x, m.ok x = true) :
    (m.setBytes b bs).readUint32Le a = m.readUint32Le a := by
  apply readUint32Le_congr_ok
  · intro x h1 h2
    rw [setBytes_bytes, if_neg (by omega)]
  · exact hok
  · intro x
    rw [setBytes_ok]
    exact hok x

/-- A 32-bit read is unaffected by zeroing a disjoint region. -/
theorem readUint32Le_zeroRegion_disjoint (m : Memory) (a b n : Nat)
    (hd : a + 4 ≤ b ∨ b + n ≤ a) (hok : ∀ x, m.ok x = true) :
    (m.zeroRegion b n).readUint32Le a = m.readUint32Le a := by
  apply readUint32Le_congr_ok
  · intro x h1 h2
    rw [zeroRegion_bytes, if_neg (by omega)]
  · exact hok
  · intro x
    rw [zeroRegion_ok]
    exact hok x

/-- A successful `writeMap` run in a non-failing environment: the run
returns the header offset with no error, every pinned offset (the two
array buffers plus one per string key/value) is also unpinned exactly
once, and — as long as the allocator never crossed the 32-bit boundary
— the six header words, the entries buffer length word, every entry's
key/value fields and tagged-next word, and every bucket word read back
as the layout prescribes. -/
theorem writeMap_run_spec (env : Env) (typ kt vt : String)
    (pairs : List (HostVal × HostVal)) (st : WasmState)
    (bc ec mask es defId : Nat)
    (hkt : kt ∈ ["u32", "u64", "string"]) (hvt : vt ∈ ["u32", "u64", "string"])
    (hsub : env.getMapSubtypes typ = (kt, vt))
    (hks : env.sizeOfType kt = hostTypeSize kt)
    (hvs : env.sizeOfType vt = hostTypeSize vt)
    (hdef : env.typeDefId typ = .ok defId)
    (hfail : NoFailEnv env)
    (hcap : writeMapCapacities pairs.length = (bc, ec, mask))
    (hes : es = entrySizeCalc (hostTypeSize kt) (hostTypeSize vt))
    (hok : ∀ x, st.mem.ok x = true)
    (hwf : ∀ p ∈ pairs, wfVal kt p.1 = true ∧ wfVal vt p.2 = true) :
    ∃ stF off bbo ebo newPins,
      writeMap env typ (.mapData pairs) st = (stF, off, none) ∧
      stF.pinLog = st.pinLog ++ (bbo :: ebo :: newPins) ∧
      stF.unpinLog = st.unpinLog ++ (bbo :: ebo :: newPins) ∧
      (bbo :: ebo :: newPins).Pairwise (· < ·) ∧
      newPins.length = (if kt = "string" then pairs.length else 0) +
        (if vt = "string" then pairs.length else 0) ∧
      (∀ x, stF.mem.ok x = true) ∧
      (stF.nextAlloc < 2 ^ 32 →
        (stF.mem.readUint32Le off = some bbo ∧
         stF.mem.readUint32Le (off + 4) = some mask ∧
         stF.mem.readUint32Le (off + 8) = some ebo ∧
         stF.mem.readUint32Le (off + 12) = some ec ∧
         stF.mem.readUint32Le (off + 16) = some pairs.length ∧
         stF.mem.readUint32Le (off + 20) = some pairs.length) ∧
        stF.mem.readUint32Le (u32Sub4 ebo) = some (es * ec) ∧
        (∀ j, j < pairs.length →
          readField stF.mem kt (ebo + es * j) = .ok (pairs.getD j (.u32 0, .u32 0)).1 ∧
          readField stF.mem vt (ebo + es * j + getSizeForOffset kt) =
            .ok (pairs.getD j (.u32 0, .u32 0)).2) ∧
        (∀ j, j < pairs.length →
          stF.mem.readUint32Le (ebo + es * j + (getSizeForOffset vt + getSizeForOffset kt)) =
            some (taggedNextVal env mask ebo es (pairs.map Prod.fst) j)) ∧
        (∀ b, b ≤ mask → stF.mem.readUint32Le (bbo + 4 * b) =
          some (bucketHead env mask ebo es (pairs.map Prod.fst) b))) := by
  obtain ⟨hAF, hPF, hUF⟩ := hfail
  obtain ⟨hbc4, hnbc, hmaskbc, hnec, hec4⟩ := writeMapCapacities_facts _ _ _ _ hcap
  obtain ⟨hg1, hg2, hg3, hg4, hg5⟩ := layoutFacts kt vt hkt hvt
  simp only [writeMap, writeMapBody, hcap, hsub, hks, hvs, allocateWasmMemory, hAF,
    pinWasmMemory, hPF, hdef, ← hes]
  have hm2 : es * pairs.length ≤ es * ec := Nat.mul_le_mul_left es hnec
  have hokD : ∀ x, ((((st.mem.setBytes st.nextAlloc (leBytes 4 (4 * bc))).zeroRegion
      (st.nextAlloc + 4) (4 * bc)).setBytes (st.nextAlloc + 4 + 4 * bc)
      (leBytes 4 (es * ec))).zeroRegion (st.nextAlloc + 4 + 4 * bc + 4) (es * ec)).ok x =
      true := by
    intro x
    simp only [zeroRegion_ok, setBytes_ok]
    exact hok x
  have hslots : st.nextAlloc + 4 + 4 * bc + 4 + es * (0 + pairs.length) ≤
      st.nextAlloc + 4 + 4 * bc + 4 + es * ec := by
    rw [Nat.zero_add]
    omega
  have hbkt : st.nextAlloc + 4 + 4 * (mask + 1) + 4 ≤ st.nextAlloc + 4 + 4 * bc + 4 := by
    omega
  have hbuckets : ∀ b, b ≤ mask →
      ((((st.mem.setBytes st.nextAlloc (leBytes 4 (4 * bc))).zeroRegion
        (st.nextAlloc + 4) (4 * bc)).setBytes (st.nextAlloc + 4 + 4 * bc)
        (leBytes 4 (es * ec))).zeroRegion (st.nextAlloc + 4 + 4 * bc + 4)
        (es * ec)).readUint32Le (st.nextAlloc + 4 + 4 * b) =
        some (bucketHead env mask (st.nextAlloc + 4 + 4 * bc + 4) es [] b % 2 ^ 32) := by
    intro b hb
    have hb4 : 4 * b + 4 ≤ 4 * bc := by omega
    have h0 : bucketHead env mask (st.nextAlloc + 4 + 4 * bc + 4) es [] b = 0 := rfl
    rw [h0, Nat.zero_mod]
    apply readUint32Le_zero _ _ hokD
    intro x hx1 hx2
    rw [zeroRegion_bytes, if_neg (by omega), setBytes_bytes,
      if_neg (by rw [leBytes_length]; omega), zeroRegion_bytes, if_pos (by omega)]
  obtain ⟨stL, newPins, hloop, LD⟩ := writeMapLoop_spec env kt vt
    (st.nextAlloc + 4 + 4 * bc + 4) (st.nextAlloc + 4) es mask (getSizeForOffset kt)
    (getSizeForOffset vt + getSizeForOffset kt) hkt hvt rfl rfl hes ⟨hAF, hPF, hUF⟩
    pairs 0
    { mem := (((st.mem.setBytes st.nextAlloc (leBytes 4 (4 * bc))).zeroRegion
        (st.nextAlloc + 4) (4 * bc)).setBytes (st.nextAlloc + 4 + 4 * bc)
        (leBytes 4 (es * ec))).zeroRegion (st.nextAlloc + 4 + 4 * bc + 4) (es * ec)
      nextAlloc := st.nextAlloc + 4 + 4 * bc + 4 + es * ec
      allocCount := st.allocCount + 1 + 1
      pinLog := st.pinLog ++ [st.nextAlloc + 4] ++ [st.nextAlloc + 4 + 4 * bc + 4]
      unpinLog := st.unpinLog }
    ([st.nextAlloc + 4] ++ [st.nextAlloc + 4 + 4 * bc + 4]) [] rfl hwf hokD hslots hbkt
    hbuckets
  have hokL : ∀ x, stL.mem.ok x = true := LD.okEq
  simp only [hloop, writeUint32Le_ok_simp, setBytes_ok, zeroRegion_ok, hokL, implies_true,
    writeMapDefer_spec env hUF]
  have hpb : ∀ p ∈ newPins,
      st.nextAlloc + 4 + 4 * bc + 4 + es * ec + 4 ≤ p ∧ p ≤ stL.nextAlloc := LD.pinsBounds
  refine ⟨_, _, st.nextAlloc + 4, st.nextAlloc + 4 + 4 * bc + 4, newPins, rfl,
    ?_, ?_, ?_, LD.pinsLen, ?_, ?_⟩
  · simp [LD.pinsLog]
  · simp [LD.unpinsLog]
  · refine List.Pairwise.cons ?_ (List.Pairwise.cons ?_ LD.pinsSorted)
    · intro a ha
      rcases List.mem_cons.mp ha with rfl | ha2
      · omega
      · have := (hpb a ha2).1
        omega
    · intro a ha
      have := (hpb a ha).1
      omega
  · intro x
    simp only [setBytes_ok, zeroRegion_ok]
    exact hokL x
  · intro hbound
    dsimp only at hbound ⊢
    have hb32 : stL.nextAlloc + 4 + 24 < 2 ^ 32 := hbound
    have hmono : st.nextAlloc + 4 + 4 * bc + 4 + es * ec ≤ stL.nextAlloc := LD.mono
    have hes12 : 12 ≤ es := by rw [hes]; exact hg4
    have hgs : getSizeForOffset vt + getSizeForOffset kt + 4 ≤ es := by rw [hes]; exact hg3
    have hece : ec ≤ es * ec := by
      have h1 := Nat.mul_le_mul_right ec (show 1 ≤ es by omega)
      rw [one_mul] at h1
      exact h1
    have hokStep : ∀ (m : Memory) (a : Nat) (bs : List Nat), (∀ x, m.ok x = true) →
        ∀ x, (m.setBytes a bs).ok x = true := fun m a bs h x => by
      rw [setBytes_ok]
      exact h x
    have hok0 : ∀ x, ((stL.mem.setBytes stL.nextAlloc (leBytes 4 24)).zeroRegion
        (stL.nextAlloc + 4) 24).ok x = true := fun x => by
      rw [zeroRegion_ok, setBytes_ok]
      exact hokL x
    have hokW0 := hokStep _ stL.nextAlloc (leBytes 4 24) hokL
    have hok1 := hokStep _ (stL.nextAlloc + 4) (leBytes 4 (st.nextAlloc + 4)) hok0
    have hok2 := hokStep _ (stL.nextAlloc + 4 + 4) (leBytes 4 mask) hok1
    have hok3 := hokStep _ (stL.nextAlloc + 4 + 8)
      (leBytes 4 (st.nextAlloc + 4 + 4 * bc + 4)) hok2
    have hok4 := hokStep _ (stL.nextAlloc + 4 + 12) (leBytes 4 ec) hok3
    have hok5 := hokStep _ (stL.nextAlloc + 4 + 16) (leBytes 4 pairs.length) hok4
    have hok6 := hokStep _ (stL.nextAlloc + 4 + 20) (leBytes 4 pairs.length) hok5
    have hokM0 : ∀ x, ((st.mem.setBytes st.nextAlloc (leBytes 4 (4 * bc))).zeroRegion
        (st.nextAlloc + 4) (4 * bc)).ok x = true := fun x => by
      rw [zeroRegion_ok, setBytes_ok]
      exact hok x
    have hokM1 := hokStep _ (st.nextAlloc + 4 + 4 * bc) (leBytes 4 (es * ec)) hokM0
    have hFrameH : ∀ x, x < stL.nextAlloc →
        ((((((((stL.mem.setBytes stL.nextAlloc (leBytes 4 24)).zeroRegion (stL.nextAlloc + 4)
          24).setBytes (stL.nextAlloc + 4) (leBytes 4 (st.nextAlloc + 4))).setBytes
          (stL.nextAlloc + 4 + 4) (leBytes 4 mask)).setBytes (stL.nextAlloc + 4 + 8)
          (leBytes 4 (st.nextAlloc + 4 + 4 * bc + 4))).setBytes (stL.nextAlloc + 4 + 12)
          (leBytes 4 ec)).setBytes (stL.nextAlloc + 4 + 16)
          (leBytes 4 pairs.length)).setBytes (stL.nextAlloc + 4 + 20)
          (leBytes 4 pairs.length)).bytes x = stL.mem.bytes x := by
      intro x hx
      rw [setBytes_bytes, if_neg (by rw [leBytes_length]; omega),
        setBytes_bytes, if_neg (by rw [leBytes_length]; omega),
        setBytes_bytes, if_neg (by rw [leBytes_length]; omega),
        setBytes_bytes, if_neg (by rw [leBytes_length]; omega),
        setBytes_bytes, if_neg (by rw [leBytes_length]; omega),
        setBytes_bytes, if_neg (by rw [leBytes_length]; omega),
        zeroRegion_bytes, if_neg (by omega),
        setBytes_bytes, if_neg (by rw [leBytes_length]; omega)]
    have hokF : ∀ x,
        ((((((((stL.mem.setBytes stL.nextAlloc (leBytes 4 24)).zeroRegion (stL.nextAlloc + 4)
          24).setBytes (stL.nextAlloc + 4) (leBytes 4 (st.nextAlloc + 4))).setBytes
          (stL.nextAlloc + 4 + 4) (leBytes 4 mask)).setBytes (stL.nextAlloc + 4 + 8)
          (leBytes 4 (st.nextAlloc + 4 + 4 * bc + 4))).setBytes (stL.nextAlloc + 4 + 12)
          (leBytes 4 ec)).setBytes (stL.nextAlloc + 4 + 16)
          (leBytes 4 pairs.length)).setBytes (stL.nextAlloc + 4 + 20)
          (leBytes 4 pairs.length)).ok x = true := hok6
    have hfrL : ∀ x, x < st.nextAlloc + 4 + 4 * bc + 4 + es * ec →
        ¬(st.nextAlloc + 4 ≤ x ∧ x < st.nextAlloc + 4 + 4 * (mask + 1)) →
        ¬(st.nextAlloc + 4 + 4 * bc + 4 + es * 0 ≤ x ∧
          x < st.nextAlloc + 4 + 4 * bc + 4 + es * (0 + pairs.length)) →
        stL.mem.bytes x = ((((st.mem.setBytes st.nextAlloc (leBytes 4 (4 * bc))).zeroRegion
          (st.nextAlloc + 4) (4 * bc)).setBytes (st.nextAlloc + 4 + 4 * bc)
          (leBytes 4 (es * ec))).zeroRegion (st.nextAlloc + 4 + 4 * bc + 4)
          (es * ec)).bytes x := LD.frame
    have hRB : ∀ m' : Memory, stL.nextAlloc < 2 ^ 32 →
        (∀ x, ((st.nextAlloc + 4 + 4 * bc + 4 + es * 0 ≤ x ∧
          x < st.nextAlloc + 4 + 4 * bc + 4 + es * (0 + pairs.length)) ∨
          (st.nextAlloc + 4 + 4 * bc + 4 + es * ec ≤ x ∧ x < stL.nextAlloc)) →
          m'.bytes x = stL.mem.bytes x) →
        (∀ x, m'.ok x = true) →
        ∀ j, j < pairs.length →
          readField m' kt (st.nextAlloc + 4 + 4 * bc + 4 + es * (0 + j)) =
            .ok (pairs.getD j (.u32 0, .u32 0)).1 ∧
          readField m' vt (st.nextAlloc + 4 + 4 * bc + 4 + es * (0 + j) +
            getSizeForOffset kt) = .ok (pairs.getD j (.u32 0, .u32 0)).2 := LD.readback
    have hTG : ∀ j, 0 ≤ j → j < 0 + pairs.length →
        stL.mem.readUint32Le (st.nextAlloc + 4 + 4 * bc + 4 + es * j +
          (getSizeForOffset vt + getSizeForOffset kt)) =
          some (taggedNextVal env mask (st.nextAlloc + 4 + 4 * bc + 4) es
            ([] ++ pairs.map Prod.fst) j % 2 ^ 32) := LD.tagged
    have hBK : ∀ b, b ≤ mask → stL.mem.readUint32Le (st.nextAlloc + 4 + 4 * b) =
        some (bucketHead env mask (st.nextAlloc + 4 + 4 * bc + 4) es
          ([] ++ pairs.map Prod.fst) b % 2 ^ 32) := LD.buckets
    have hag : ∀ x, ((st.nextAlloc + 4 + 4 * bc + 4 + es * 0 ≤ x ∧
        x < st.nextAlloc + 4 + 4 * bc + 4 + es * (0 + pairs.length)) ∨
        (st.nextAlloc + 4 + 4 * bc + 4 + es * ec ≤ x ∧ x < stL.nextAlloc)) →
        ((((((((stL.mem.setBytes stL.nextAlloc (leBytes 4 24)).zeroRegion (stL.nextAlloc + 4)
          24).setBytes (stL.nextAlloc + 4) (leBytes 4 (st.nextAlloc + 4))).setBytes
          (stL.nextAlloc + 4 + 4) (leBytes 4 mask)).setBytes (stL.nextAlloc + 4 + 8)
          (leBytes 4 (st.nextAlloc + 4 + 4 * bc + 4))).setBytes (stL.nextAlloc + 4 + 12)
          (leBytes 4 ec)).setBytes (stL.nextAlloc + 4 + 16)
          (leBytes 4 pairs.length)).setBytes (stL.nextAlloc + 4 + 20)
          (leBytes 4 pairs.length)).bytes x = stL.mem.bytes x := by
      intro x hx
      apply hFrameH
      rcases hx with ⟨h1, h2⟩ | ⟨h1, h2⟩
      · rw [Nat.zero_add] at h2
        omega
      · omega
    refine ⟨⟨?_, ?_, ?_, ?_, ?_, ?_⟩, ?_, ?_, ?_, ?_⟩
    · rw [readUint32Le_setBytes_disjoint _ (stL.nextAlloc + 4) (stL.nextAlloc + 4 + 20) _
          (Or.inl (by omega)) hok5,
        readUint32Le_setBytes_disjoint _ (stL.nextAlloc + 4) (stL.nextAlloc + 4 + 16) _
          (Or.inl (by omega)) hok4,
        readUint32Le_setBytes_disjoint _ (stL.nextAlloc + 4) (stL.nextAlloc + 4 + 12) _
          (Or.inl (by omega)) hok3,
        readUint32Le_setBytes_disjoint _ (stL.nextAlloc + 4) (stL.nextAlloc + 4 + 8) _
          (Or.inl (by omega)) hok2,
        readUint32Le_setBytes_disjoint _ (stL.nextAlloc + 4) (stL.nextAlloc + 4 + 4) _
          (Or.inl (by omega)) hok1,
        readUint32Le_setBytes_leBytes _ _ _ hok0, Nat.mod_eq_of_lt (by omega)]
    · rw [readUint32Le_setBytes_disjoint _ (stL.nextAlloc + 4 + 4) (stL.nextAlloc + 4 + 20) _
          (Or.inl (by omega)) hok5,
        readUint32Le_setBytes_disjoint _ (stL.nextAlloc + 4 + 4) (stL.nextAlloc + 4 + 16) _
          (Or.inl (by omega)) hok4,
        readUint32Le_setBytes_disjoint _ (stL.nextAlloc + 4 + 4) (stL.nextAlloc + 4 + 12) _
          (Or.inl (by omega)) hok3,
        readUint32Le_setBytes_disjoint _ (stL.nextAlloc + 4 + 4) (stL.nextAlloc + 4 + 8) _
          (Or.inl (by omega)) hok2,
        readUint32Le_setBytes_leBytes _ _ _ hok1, Nat.mod_eq_of_lt (by omega)]
    · rw [readUint32Le_setBytes_disjoint _ (stL.nextAlloc + 4 + 8) (stL.nextAlloc + 4 + 20) _
          (Or.inl (by omega)) hok5,
        readUint32Le_setBytes_disjoint _ (stL.nextAlloc + 4 + 8) (stL.nextAlloc + 4 + 16) _
          (Or.inl (by omega)) hok4,
        readUint32Le_setBytes_disjoint _ (stL.nextAlloc + 4 + 8) (stL.nextAlloc + 4 + 12) _
          (Or.inl (by omega)) hok3,
        readUint32Le_setBytes_leBytes _ _ _ hok2, Nat.mod_eq_of_lt (by omega)]
    · rw [readUint32Le_setBytes_disjoint _ (stL.nextAlloc + 4 + 12) (stL.nextAlloc + 4 + 20) _
          (Or.inl (by omega)) hok5,
        readUint32Le_setBytes_disjoint _ (stL.nextAlloc + 4 + 12) (stL.nextAlloc + 4 + 16) _
          (Or.inl (by omega)) hok4,
        readUint32Le_setBytes_leBytes _ _ _ hok3, Nat.mod_eq_of_lt (by omega)]
    · rw [readUint32Le_setBytes_disjoint _ (stL.nextAlloc + 4 + 16) (stL.nextAlloc + 4 + 20) _
          (Or.inl (by omega)) hok5,
        readUint32Le_setBytes_leBytes _ _ _ hok4, Nat.mod_eq_of_lt (by omega)]
    · rw [readUint32Le_setBytes_leBytes _ _ _ hok5, Nat.mod_eq_of_lt (by omega)]
    · rw [u32Sub4_eq _ (by omega) (by omega),
        show st.nextAlloc + 4 + 4 * bc + 4 - 4 = st.nextAlloc + 4 + 4 * bc from by omega,
        readUint32Le_setBytes_disjoint _ (st.nextAlloc + 4 + 4 * bc)
          (stL.nextAlloc + 4 + 20) _ (Or.inl (by omega)) hok5,
        readUint32Le_setBytes_disjoint _ (st.nextAlloc + 4 + 4 * bc)
          (stL.nextAlloc + 4 + 16) _ (Or.inl (by omega)) hok4,
        readUint32Le_setBytes_disjoint _ (st.nextAlloc + 4 + 4 * bc)
          (stL.nextAlloc + 4 + 12) _ (Or.inl (by omega)) hok3,
        readUint32Le_setBytes_disjoint _ (st.nextAlloc + 4 + 4 * bc)
          (stL.nextAlloc + 4 + 8) _ (Or.inl (by omega)) hok2,
        readUint32Le_setBytes_disjoint _ (st.nextAlloc + 4 + 4 * bc)
          (stL.nextAlloc + 4 + 4) _ (Or.inl (by omega)) hok1,
        readUint32Le_setBytes_disjoint _ (st.nextAlloc + 4 + 4 * bc)
          (stL.nextAlloc + 4) _ (Or.inl (by omega)) hok0,
        readUint32Le_zeroRegion_disjoint _ (st.nextAlloc + 4 + 4 * bc)
          (stL.nextAlloc + 4) 24 (Or.inl (by omega)) hokW0,
        readUint32Le_setBytes_disjoint _ (st.nextAlloc + 4 + 4 * bc)
          stL.nextAlloc _ (Or.inl (by omega)) hokL,
        readUint32Le_congr_ok _ stL.mem (st.nextAlloc + 4 + 4 * bc)
          (fun x h1 h2 => hfrL x (by omega) (by omega) (by omega)) hokD hokL,
        readUint32Le_zeroRegion_disjoint _ (st.nextAlloc + 4 + 4 * bc)
          (st.nextAlloc + 4 + 4 * bc + 4) (es * ec) (Or.inl (by omega)) hokM1,
        readUint32Le_setBytes_leBytes _ _ _ hokM0, Nat.mod_eq_of_lt (by omega)]
    · intro j hj
      have h := hRB _ (by omega) hag hokF j hj
      simp only [Nat.zero_add] at h
      exact h
    · intro j hj
      have hje : es * (j + 1) ≤ es * ec := Nat.mul_le_mul_left es (by omega)
      have hje2 : es * (j + 1) = es * j + es := by ring
      have htv : taggedNextVal env mask (st.nextAlloc + 4 + 4 * bc + 4) es
          (pairs.map Prod.fst) j < 2 ^ 32 := by
        unfold taggedNextVal
        rcases bucketHead_cases env mask (st.nextAlloc + 4 + 4 * bc + 4) es
          ((pairs.map Prod.fst).take j)
          (bucketOf env mask ((pairs.map Prod.fst).getD j (.u32 0))) with h0 | ⟨j2, hj2, hv⟩
        · rw [h0]
          omega
        · rw [hv]
          have hj3 : j2 < pairs.length := by
            simp only [List.length_take, List.length_map] at hj2
            omega
          have h2 : es * (j2 + 1) ≤ es * ec := Nat.mul_le_mul_left es (by omega)
          have h3 : es * (j2 + 1) = es * j2 + es := by ring
          omega
      have h := hTG j (Nat.zero_le j) (by omega)
      rw [List.nil_append, Nat.mod_eq_of_lt htv] at h
      rw [readUint32Le_congr_ok stL.mem _
        (st.nextAlloc + 4 + 4 * bc + 4 + es * j +
          (getSizeForOffset vt + getSizeForOffset kt))
        (fun x h1 h2 => hFrameH x (by omega)) hokL hokF]
      exact h
    · intro b hb
      have hbv : bucketHead env mask (st.nextAlloc + 4 + 4 * bc + 4) es
          (pairs.map Prod.fst) b < 2 ^ 32 := by
        rcases bucketHead_cases env mask (st.nextAlloc + 4 + 4 * bc + 4) es
          (pairs.map Prod.fst) b with h0 | ⟨j2, hj2, hv⟩
        · rw [h0]
          omega
        · rw [hv]
          have hj3 : j2 < pairs.length := by
            simpa using hj2
          have h2 : es * (j2 + 1) ≤ es * ec := Nat.mul_le_mul_left es (by omega)
          have h3 : es * (j2 + 1) = es * j2 + es := by ring
          omega
      have h := hBK b hb
      rw [List.nil_append, Nat.mod_eq_of_lt hbv] at h
      rw [readUint32Le_congr_ok stL.mem _ (st.nextAlloc + 4 + 4 * b)
        (fun x h1 h2 => hFrameH x (by omega)) hokL hokF]
      exact h

/-- C1: for every native mapping over the modelled codec vocabulary
(`u32` / `u64` / `string` keys and values, with a comparable key type
and distinct keys), writing the map with `writeMap` and reading the
returned offset back with `readMap` for the same logical map type
yields a native mapping equal to the input — here literally the same
association list, hence in particular equal as a set of key-value
pairs — provided the allocator stayed inside the 32-bit address
space. -/
theorem readMap_writeMap_roundTrip (env : Env) (typ kt vt : String)
    (pairs : List (HostVal × HostVal)) (st : WasmState)
    (hkt : kt ∈ ["u32", "u64", "string"]) (hvt : vt ∈ ["u32", "u64", "string"])
    (hsub : env.getMapSubtypes typ = (kt, vt))
    (hks : env.sizeOfType kt = hostTypeSize kt)
    (hvs : env.sizeOfType vt = hostTypeSize vt)
    (hdef : ∃ defId, env.typeDefId typ = .ok defId)
    (hcmp : env.reflectedComparable kt = .ok true)
    (hcmpv : ∃ b, env.reflectedComparable vt = .ok b)
    (hfail : NoFailEnv env)
    (hok : ∀ x, st.mem.ok x = true)
    (hwf : ∀ p ∈ pairs, wfVal kt p.1 = true ∧ wfVal vt p.2 = true)
    (hnodup : (pairs.map Prod.fst).Nodup) :
    ∃ stF off, writeMap env typ (.mapData pairs) st = (stF, off, none) ∧
      (stF.nextAlloc < 2 ^ 32 → readMap env stF.mem typ off = .ok (.mapVal pairs)) := by
  obtain ⟨defId, hdef⟩ := hdef
  obtain ⟨bv, hcmpv⟩ := hcmpv
  rcases hcapE : writeMapCapacities pairs.length with ⟨bc, ec, mask⟩
  obtain ⟨hbc4, hnbc, hmaskeq, hnec, hec4⟩ := writeMapCapacities_facts _ _ _ _ hcapE
  obtain ⟨stF, off, bbo, ebo, newPins, hrun, hpl, hul, hpw, hlen, hokF, hfacts⟩ :=
    writeMap_run_spec env typ kt vt pairs st bc ec mask
      (entrySizeCalc (hostTypeSize kt) (hostTypeSize vt)) defId hkt hvt hsub hks hvs hdef
      hfail hcapE rfl hok hwf
  refine ⟨stF, off, hrun, fun hbound => ?_⟩
  obtain ⟨⟨hH0, hH4, hH8, hH12, hH16, hH20⟩, hBL, hRB, hTG, hBK⟩ := hfacts hbound
  have hgd : goDivU32 (entrySizeCalc (hostTypeSize kt) (hostTypeSize vt) * ec) ec =
      .ok (entrySizeCalc (hostTypeSize kt) (hostTypeSize vt)) := by
    unfold goDivU32
    rw [if_neg (show ¬ec = 0 by omega),
      Nat.mul_div_cancel _ (show 0 < ec by omega)]
  have hpairsRB : readMapPairs stF.mem kt vt ebo
      (entrySizeCalc (hostTypeSize kt) (hostTypeSize vt)) (getSizeForOffset kt) 0
      pairs.length = .ok pairs := by
    apply readMapPairs_of_readback
    intro j hj
    simpa [Nat.zero_add] using hRB j hj
  simp only [readMap, hH8, hH12, hH20, hBL, hgd, hsub, hcmp, hcmpv, if_true, hpairsRB]
  rw [foldl_mapSetIndex_nodup pairs [] (by simpa using hnodup)]
  simp

/-- Witness for C1: a concrete two-entry `u32 → u32` map written with
the non-failing fixture environment round-trips through guest memory. -/
theorem readMap_writeMap_roundTrip_witness :
    (("u32" : String) ∈ ["u32", "u64", "string"] ∧
     envU32.getMapSubtypes "m" = ("u32", "u32") ∧
     envU32.reflectedComparable "u32" = .ok true ∧
     (∀ p ∈ [((HostVal.u32 1 : HostVal), (HostVal.u32 2 : HostVal)),
        (HostVal.u32 5, HostVal.u32 6)],
        wfVal "u32" p.1 = true ∧ wfVal "u32" p.2 = true) ∧
     (([((HostVal.u32 1 : HostVal), (HostVal.u32 2 : HostVal)),
        (HostVal.u32 5, HostVal.u32 6)].map Prod.fst).Nodup)) ∧
    ∃ stF off,
      writeMap envU32 "m"
        (.mapData [(HostVal.u32 1, HostVal.u32 2), (HostVal.u32 5, HostVal.u32 6)]) stInit =
        (stF, off, none) ∧
      (stF.nextAlloc < 2 ^ 32 →
        readMap envU32 stF.mem "m" off =
          .ok (.mapVal [(HostVal.u32 1, HostVal.u32 2), (HostVal.u32 5, HostVal.u32 6)])) :=
  ⟨⟨by decide, by decide, rfl, by decide, by decide⟩,
   readMap_writeMap_roundTrip envU32 "m" "u32" "u32"
     [(HostVal.u32 1, HostVal.u32 2), (HostVal.u32 5, HostVal.u32 6)] stInit
     (by decide) (by decide) (by decide) rfl rfl ⟨7, rfl⟩
     rfl ⟨true, rfl⟩ ⟨fun _ => rfl, fun _ => rfl, fun _ => rfl⟩
     (fun _ => rfl) (by decide) (by decide)⟩

/-- C5: every successful `writeMap` of N entries pins exactly the two
array buffers plus one pointer per allocated (string) key/value field
— scalar fields allocate nothing and are not pinned — and before
returning it unpins exactly the pinned offsets, each exactly once:
the pin and unpin traces grow by the same duplicate-free list, whose
length is 2 plus the number of allocated key/value pointers. -/
theorem writeMap_pin_unpin_balance (env : Env) (typ kt vt : String)
    (pairs : List (HostVal × HostVal)) (st : WasmState)
    (hkt : kt ∈ ["u32", "u64", "string"]) (hvt : vt ∈ ["u32", "u64", "string"])
    (hsub : env.getMapSubtypes typ = (kt, vt))
    (hks : env.sizeOfType kt = hostTypeSize kt)
    (hvs : env.sizeOfType vt = hostTypeSize vt)
    (hdef : ∃ defId, env.typeDefId typ = .ok defId)
    (hfail : NoFailEnv env)
    (hok : ∀ x, st.mem.ok x = true)
    (hwf : ∀ p ∈ pairs, wfVal kt p.1 = true ∧ wfVal vt p.2 = true) :
    ∃ stF off allPins,
      writeMap env typ (.mapData pairs) st = (stF, off, none) ∧
      stF.pinLog = st.pinLog ++ allPins ∧
      stF.unpinLog = st.unpinLog ++ allPins ∧
      allPins.Nodup ∧
      allPins.length = 2 + ((if kt = "string" then pairs.length else 0) +
        (if vt = "string" then pairs.length else 0)) := by
  obtain ⟨defId, hdef⟩ := hdef
  rcases hcapE : writeMapCapacities pairs.length with ⟨bc, ec, mask⟩
  obtain ⟨stF, off, bbo, ebo, newPins, hrun, hpl, hul, hpw, hlen, hokF, hfacts⟩ :=
    writeMap_run_spec env typ kt vt pairs st bc ec mask
      (entrySizeCalc (hostTypeSize kt) (hostTypeSize vt)) defId hkt hvt hsub hks hvs hdef
      hfail hcapE rfl hok hwf
  refine ⟨stF, off, bbo :: ebo :: newPins, hrun, hpl, hul, ?_, ?_⟩
  · exact hpw.imp fun h => Nat.ne_of_lt h
  · simp only [List.length_cons, hlen]
    omega

/-- Witness for C5: a concrete two-entry map with string keys and u64
values pins the two buffers plus the two string-key buffers and
unpins the same four offsets exactly once each. -/
theorem writeMap_pin_unpin_balance_witness :
    (("string" : String) ∈ ["u32", "u64", "string"] ∧
     envStrU64.getMapSubtypes "m" = ("string", "u64") ∧
     (∀ p ∈ [((HostVal.str [72, 300] : HostVal), (HostVal.u64 (2 ^ 40 + 7) : HostVal)),
        (HostVal.str [], HostVal.u64 0)],
        wfVal "string" p.1 = true ∧ wfVal "u64" p.2 = true)) ∧
    ∃ stF off allPins,
      writeMap envStrU64 "m"
        (.mapData [(HostVal.str [72, 300], HostVal.u64 (2 ^ 40 + 7)),
          (HostVal.str [], HostVal.u64 0)]) stInit = (stF, off, none) ∧
      stF.pinLog = stInit.pinLog ++ allPins ∧
      stF.unpinLog = stInit.unpinLog ++ allPins ∧
      allPins.Nodup ∧
      allPins.length = 2 + ((if ("string" : String) = "string" then
        ([((HostVal.str [72, 300] : HostVal), (HostVal.u64 (2 ^ 40 + 7) : HostVal)),
          (HostVal.str [], HostVal.u64 0)] : List (HostVal × HostVal)).length else 0) +
        (if ("u64" : String) = "string" then
        ([((HostVal.str [72, 300] : HostVal), (HostVal.u64 (2 ^ 40 + 7) : HostVal)),
          (HostVal.str [], HostVal.u64 0)] : List (HostVal × HostVal)).length else 0)) :=
  ⟨⟨by decide, by decide, by decide⟩,
   writeMap_pin_unpin_balance envStrU64 "m" "string" "u64"
     [(HostVal.str [72, 300], HostVal.u64 (2 ^ 40 + 7)), (HostVal.str [], HostVal.u64 0)]
     stInit (by decide) (by decide) rfl rfl rfl ⟨7, rfl⟩
     ⟨fun _ => rfl, fun _ => rfl, fun _ => rfl⟩ (fun _ => rfl) (by decide)⟩

/-- C7: LIFO collision chaining.  On a successful write (within the
32-bit address space) the bucket word for every bucket index `b`
holds the offset of the most recently inserted entry whose key hashes
to `b` under `hashCode & bucketsMask` (0 when no key does), and every
entry's tagged-next word holds its bucket's head pointer from just
before that entry was inserted — 0 for the first colliding key, and
the offset of the previously inserted colliding entry afterwards. -/
theorem writeMap_lifo_chaining (env : Env) (typ kt vt : String)
    (pairs : List (HostVal × HostVal)) (st : WasmState) (bc ec mask : Nat)
    (hkt : kt ∈ ["u32", "u64", "string"]) (hvt : vt ∈ ["u32", "u64", "string"])
    (hsub : env.getMapSubtypes typ = (kt, vt))
    (hks : env.sizeOfType kt = hostTypeSize kt)
    (hvs : env.sizeOfType vt = hostTypeSize vt)
    (hdef : ∃ defId, env.typeDefId typ = .ok defId)
    (hfail : NoFailEnv env)
    (hcap : writeMapCapacities pairs.length = (bc, ec, mask))
    (hok : ∀ x, st.mem.ok x = true)
    (hwf : ∀ p ∈ pairs, wfVal kt p.1 = true ∧ wfVal vt p.2 = true) :
    ∃ stF off, writeMap env typ (.mapData pairs) st = (stF, off, none) ∧
      (stF.nextAlloc < 2 ^ 32 →
        ∃ bbo ebo,
          stF.mem.readUint32Le off = some bbo ∧
          stF.mem.readUint32Le (off + 8) = some ebo ∧
          (∀ j, j < pairs.length →
            stF.mem.readUint32Le (ebo +
              entrySizeCalc (hostTypeSize kt) (hostTypeSize vt) * j +
              (getSizeForOffset vt + getSizeForOffset kt)) =
              some (taggedNextVal env mask ebo
                (entrySizeCalc (hostTypeSize kt) (hostTypeSize vt))
                (pairs.map Prod.fst) j)) ∧
          (∀ b, b ≤ mask → stF.mem.readUint32Le (bbo + 4 * b) =
            some (bucketHead env mask ebo
              (entrySizeCalc (hostTypeSize kt) (hostTypeSize vt))
              (pairs.map Prod.fst) b))) := by
  obtain ⟨defId, hdef⟩ := hdef
  obtain ⟨stF, off, bbo, ebo, newPins, hrun, hpl, hul, hpw, hlen, hokF, hfacts⟩ :=
    writeMap_run_spec env typ kt vt pairs st bc ec mask
      (entrySizeCalc (hostTypeSize kt) (hostTypeSize vt)) defId hkt hvt hsub hks hvs hdef
      hfail hcap rfl hok hwf
  refine ⟨stF, off, hrun, fun hbound => ?_⟩
  obtain ⟨⟨hH0, hH4, hH8, hH12, hH16, hH20⟩, hBL, hRB, hTG, hBK⟩ := hfacts hbound
  exact ⟨bbo, ebo, hH0, hH8, hTG, hBK⟩

/-- Witness for C7: a concrete map whose two `u32` keys 1 and 5 both
hash to bucket 1 under mask 3, giving a two-link LIFO chain. -/
theorem writeMap_lifo_chaining_witness :
    (("u32" : String) ∈ ["u32", "u64", "string"] ∧
     envU32.getMapSubtypes "m" = ("u32", "u32") ∧
     writeMapCapacities
       ([((HostVal.u32 1 : HostVal), (HostVal.u32 2 : HostVal)),
         (HostVal.u32 5, HostVal.u32 6)] : List (HostVal × HostVal)).length = (4, 4, 3) ∧
     (∀ p ∈ [((HostVal.u32 1 : HostVal), (HostVal.u32 2 : HostVal)),
        (HostVal.u32 5, HostVal.u32 6)],
        wfVal "u32" p.1 = true ∧ wfVal "u32" p.2 = true)) ∧
    ∃ stF off,
      writeMap envU32 "m"
        (.mapData [(HostVal.u32 1, HostVal.u32 2), (HostVal.u32 5, HostVal.u32 6)]) stInit =
        (stF, off, none) ∧
      (stF.nextAlloc < 2 ^ 32 →
        ∃ bbo ebo,
          stF.mem.readUint32Le off = some bbo ∧
          stF.mem.readUint32Le (off + 8) = some ebo ∧
          (∀ j, j < ([((HostVal.u32 1 : HostVal), (HostVal.u32 2 : HostVal)),
              (HostVal.u32 5, HostVal.u32 6)] : List (HostVal × HostVal)).length →
            stF.mem.readUint32Le (ebo + entrySizeCalc (hostTypeSize "u32")
              (hostTypeSize "u32") * j +
              (getSizeForOffset "u32" + getSizeForOffset "u32")) =
              some (taggedNextVal envU32 3 ebo
                (entrySizeCalc (hostTypeSize "u32") (hostTypeSize "u32"))
                (([((HostVal.u32 1 : HostVal), (HostVal.u32 2 : HostVal)),
                  (HostVal.u32 5, HostVal.u32 6)] :
                  List (HostVal × HostVal)).map Prod.fst) j)) ∧
          (∀ b, b ≤ 3 → stF.mem.readUint32Le (bbo + 4 * b) =
            some (bucketHead envU32 3 ebo
              (entrySizeCalc (hostTypeSize "u32") (hostTypeSize "u32"))
              (([((HostVal.u32 1 : HostVal), (HostVal.u32 2 : HostVal)),
                (HostVal.u32 5, HostVal.u32 6)] :
                List (HostVal × HostVal)).map Prod.fst) b))) :=
  ⟨⟨by decide, by decide, by decide, by decide⟩,
   writeMap_lifo_chaining envU32 "m" "u32" "u32"
     [(HostVal.u32 1, HostVal.u32 2), (HostVal.u32 5, HostVal.u32 6)] stInit 4 4 3
     (by decide) (by decide) rfl rfl rfl ⟨7, rfl⟩
     ⟨fun _ => rfl, fun _ => rfl, fun _ => rfl⟩ (by decide) (fun _ => rfl) (by decide)⟩
